import Mathlib

set_option maxRecDepth 4000
set_option maxHeartbeats 1000000

/-!
Verification of the color model converter and palette generator of
`jpy_utils/color_utils.py`.

The Python code is shallowly embedded over exact rationals (`ℚ`):
Python `int()` truncation becomes `pyInt`, Python's `%` on numbers with a
positive right operand becomes `pyMod`, and the `colorsys` routines
`rgb_to_hls` / `hls_to_rgb` (the exact formulas of CPython's `colorsys`
module, which `color_utils.py` calls) are transcribed literally.

The one place where binary64 rounding is observable in a claim is the
luminance computed by `is_dark_color`; for that function the arithmetic is
modelled bit-faithfully with `fl`, round-to-nearest-even at 53 significant
bits, which reproduces IEEE-754 double rounding for every normal-range
magnitude reachable here.

Strings are modelled as `List Char`; `pyInt16?` models Python's
`int(s, 16)` (optional surrounding ASCII whitespace, optional sign,
optional `0x`/`0X` prefix, hex digits with single underscores between
digits).
-/

/-- Python `int(q)`: truncation toward zero. -/
def pyInt (q : ℚ) : ℤ := if q < 0 then -⌊-q⌋ else ⌊q⌋

/-- Python `a % b` on numbers (result has the sign of `b`; here used with `b > 0`). -/
def pyMod (a b : ℚ) : ℚ := a - b * ⌊a / b⌋

/-- CPython `colorsys.rgb_to_hls`, transcribed over `ℚ`. -/
def rgb_to_hls (r g b : ℚ) : ℚ × ℚ × ℚ :=
  let maxc := max r (max g b)
  let minc := min r (min g b)
  let l := (minc + maxc) / 2
  if minc = maxc then (0, l, 0)
  else
    let s := if l ≤ 1/2 then (maxc - minc) / (maxc + minc)
             else (maxc - minc) / (2 - (maxc + minc))
    let rc := (maxc - r) / (maxc - minc)
    let gc := (maxc - g) / (maxc - minc)
    let bc := (maxc - b) / (maxc - minc)
    let h0 := if r = maxc then bc - gc
              else if g = maxc then 2 + rc - bc
              else 4 + gc - rc
    (pyMod (h0 / 6) 1, l, s)

/-- CPython `colorsys._v`, transcribed over `ℚ`. -/
def _v (m1 m2 hue : ℚ) : ℚ :=
  let hue := pyMod hue 1
  if hue < 1/6 then m1 + (m2 - m1) * hue * 6
  else if hue < 1/2 then m2
  else if hue < 2/3 then m1 + (m2 - m1) * (2/3 - hue) * 6
  else m1

/-- CPython `colorsys.hls_to_rgb`, transcribed over `ℚ`. -/
def hls_to_rgb (h l s : ℚ) : ℚ × ℚ × ℚ :=
  if s = 0 then (l, l, l)
  else
    let m2 := if l ≤ 1/2 then l * (1 + s) else l + s - l * s
    let m1 := 2 * l - m2
    (_v m1 m2 (h + 1/3), _v m1 m2 h, _v m1 m2 (h - 1/3))

/-- `color_utils.rgb_to_hsl`: normalize to `[0,1]`, call `colorsys`,
scale with `int()` truncation. -/
def rgb_to_hsl (r g b : ℤ) : ℤ × ℤ × ℤ :=
  let p := rgb_to_hls ((r : ℚ) / 255) ((g : ℚ) / 255) ((b : ℚ) / 255)
  (pyInt (p.1 * 360), pyInt (p.2.2 * 100), pyInt (p.2.1 * 100))

/-- `color_utils.hsl_to_rgb`: normalize, call `colorsys`, scale back with
`int()` truncation.  The palette code passes non-integer hues, hence `ℚ`
arguments. -/
def hsl_to_rgb (h s l : ℚ) : ℤ × ℤ × ℤ :=
  let p := hls_to_rgb (h / 360) (l / 100) (s / 100)
  (pyInt (p.1 * 255), pyInt (p.2.1 * 255), pyInt (p.2.2 * 255))

example : rgb_to_hsl 255 0 0 = (0, 100, 50) := by with_unfolding_all decide
example : hsl_to_rgb 0 100 50 = (255, 0, 0) := by with_unfolding_all decide
example : rgb_to_hsl 10 10 10 = (0, 0, 3) := by with_unfolding_all decide
example : hsl_to_rgb 0 0 3 = (7, 7, 7) := by with_unfolding_all decide

/-! ## Strings and Python `int(s, 16)` -/

/-- ASCII whitespace stripped by Python's `int()` around a numeral. -/
def isPyWs (c : Char) : Bool :=
  c = ' ' || c = '\t' || c = '\n' || c = '\x0d' || c = '\x0b' || c = '\x0c'

/-- Value of a hexadecimal digit character (`0-9`, `a-f`, `A-F`), if it is one. -/
def hexVal? (c : Char) : Option ℕ :=
  if 48 ≤ c.toNat ∧ c.toNat ≤ 57 then some (c.toNat - 48)
  else if 97 ≤ c.toNat ∧ c.toNat ≤ 102 then some (c.toNat - 87)
  else if 65 ≤ c.toNat ∧ c.toNat ≤ 70 then some (c.toNat - 55)
  else none

/-- Continuation of a base-16 digit run: single underscores are allowed
between digits (Python numeral grammar). -/
def hexDigitsVal : ℕ → List Char → Option ℕ
  | acc, [] => some acc
  | acc, c :: rest =>
    if c = '_' then
      match rest with
      | [] => none
      | c2 :: rest2 =>
        match hexVal? c2 with
        | some d => hexDigitsVal (16 * acc + d) rest2
        | none => none
    else
      match hexVal? c with
      | some d => hexDigitsVal (16 * acc + d) rest
      | none => none

/-- A nonempty base-16 digit run (no leading underscore). -/
def parseDigits16 : List Char → Option ℕ
  | [] => none
  | c :: rest =>
    match hexVal? c with
    | some d => hexDigitsVal d rest
    | none => none

/-- Digit part of a base-16 numeral: optional `0x`/`0X`, which may be
followed by one underscore before the digits. -/
def hexCore (t : List Char) : Option ℕ :=
  match t with
  | c0 :: c1 :: rest =>
    if c0 = '0' ∧ (c1 = 'x' ∨ c1 = 'X') then
      match rest with
      | '_' :: rest2 => parseDigits16 rest2
      | _ => parseDigits16 rest
    else parseDigits16 (c0 :: c1 :: rest)
  | _ => parseDigits16 t

/-- Python `int(s, 16)`: optional surrounding whitespace, optional sign,
optional `0x` prefix, then hex digits with single underscores between
digits.  `none` models the `ValueError` raised on malformed input. -/
def pyInt16? (s : List Char) : Option ℤ :=
  let s1 := (((s.dropWhile isPyWs).reverse).dropWhile isPyWs).reverse
  match s1 with
  | [] => none
  | c :: t =>
    if c = '+' then (hexCore t).map (fun n => (n : ℤ))
    else if c = '-' then (hexCore t).map (fun n => -(n : ℤ))
    else (hexCore (c :: t)).map (fun n => (n : ℤ))

inductive PyErr where
  | valueError
deriving DecidableEq

instance {ε α : Type} [DecidableEq ε] [DecidableEq α] : DecidableEq (Except ε α)
  | .error x, .error y =>
    if h : x = y then isTrue (congrArg Except.error h)
    else isFalse (fun hc => h (by cases hc; rfl))
  | .error _, .ok _ => isFalse (fun hc => Except.noConfusion hc)
  | .ok _, .error _ => isFalse (fun hc => Except.noConfusion hc)
  | .ok x, .ok y =>
    if h : x = y then isTrue (congrArg Except.ok h)
    else isFalse (fun hc => h (by cases hc; rfl))

/-- `color_utils.hex_to_rgb`: `lstrip('#')`, length check, then three
2-character slices parsed by `int(·, 16)`. -/
def hex_to_rgb (hex_color : List Char) : Except PyErr (ℤ × ℤ × ℤ) :=
  let t := hex_color.dropWhile (· = '#')
  if t.length = 6 then
    match pyInt16? (t.take 2), pyInt16? ((t.drop 2).take 2), pyInt16? ((t.drop 4).take 2) with
    | some a, some b, some c => .ok (a, b, c)
    | _, _, _ => .error .valueError
  else .error .valueError

/-- Uppercase hexadecimal digit of value `n < 16`. -/
def hexUpper (n : ℕ) : Char := if n < 10 then Char.ofNat (48 + n) else Char.ofNat (55 + n)

/-- Python `f"{v:02X}"` for `0 ≤ v ≤ 255`, the only range it is applied to
(it sits behind the range validation of `rgb_to_hex`). -/
def toHex2 (v : ℤ) : List Char := [hexUpper (v.toNat / 16), hexUpper (v.toNat % 16)]

/-- `color_utils.rgb_to_hex`: validates each channel (r, then g, then b),
then formats `#RRGGBB` in uppercase. -/
def rgb_to_hex (r g b : ℤ) : Except PyErr (List Char) :=
  if 0 ≤ r ∧ r ≤ 255 then
    if 0 ≤ g ∧ g ≤ 255 then
      if 0 ≤ b ∧ b ≤ 255 then .ok ('#' :: (toHex2 r ++ toHex2 g ++ toHex2 b))
      else .error .valueError
    else .error .valueError
  else .error .valueError

example : hex_to_rgb ("#FF0000".toList) = .ok (255, 0, 0) := by with_unfolding_all decide
example : hex_to_rgb ("00FF00".toList) = .ok (0, 255, 0) := by with_unfolding_all decide
example : hex_to_rgb ("+1+2+3".toList) = .ok (1, 2, 3) := by with_unfolding_all decide
example : hex_to_rgb ("12345".toList) = .error .valueError := by with_unfolding_all decide
example : rgb_to_hex 255 0 0 = .ok ("#FF0000".toList) := by with_unfolding_all decide

/-! ## The format-polymorphic color argument -/

/-- A Python argument that is either a hex string or an RGB tuple. -/
inductive PyColor where
  | hex (s : List Char)
  | rgb (t : ℤ × ℤ × ℤ)
deriving DecidableEq

/-- `isinstance(color, str)`. -/
def PyColor.isHexStr : PyColor → Bool
  | .hex _ => true
  | .rgb _ => false

/-- The shared prologue `r, g, b = hex_to_rgb(color) if is_hex else color`. -/
def unpackColor : PyColor → Except PyErr (ℤ × ℤ × ℤ)
  | .hex s => hex_to_rgb s
  | .rgb t => .ok t

/-- The shared epilogue: wrap a result tuple back into the caller's
representation (`rgb_to_hex` for hex input, the bare tuple otherwise). -/
def repackColor (isHex : Bool) (r g b : ℤ) : Except PyErr PyColor :=
  if isHex then (rgb_to_hex r g b).map PyColor.hex else .ok (.rgb (r, g, b))

/-! ## Derived-color operations -/

/-- `color_utils.lighten_color`. -/
def lighten_color (color : PyColor) (amount : ℚ) : Except PyErr PyColor := do
  let (r, g, b) ← unpackColor color
  let hsl := rgb_to_hsl r g b
  let l2 := min 100 (hsl.2.2 + pyInt (amount * 100))
  let p := hsl_to_rgb (hsl.1 : ℚ) (hsl.2.1 : ℚ) (l2 : ℚ)
  repackColor color.isHexStr p.1 p.2.1 p.2.2

/-- `color_utils.darken_color`. -/
def darken_color (color : PyColor) (amount : ℚ) : Except PyErr PyColor := do
  let (r, g, b) ← unpackColor color
  let hsl := rgb_to_hsl r g b
  let l2 := max 0 (hsl.2.2 - pyInt (amount * 100))
  let p := hsl_to_rgb (hsl.1 : ℚ) (hsl.2.1 : ℚ) (l2 : ℚ)
  repackColor color.isHexStr p.1 p.2.1 p.2.2

/-- `color_utils.get_complementary_color`. -/
def get_complementary_color (color : PyColor) : Except PyErr PyColor := do
  let (r, g, b) ← unpackColor color
  let hsl := rgb_to_hsl r g b
  let h2 := (hsl.1 + 180) % 360
  let p := hsl_to_rgb (h2 : ℚ) (hsl.2.1 : ℚ) (hsl.2.2 : ℚ)
  repackColor color.isHexStr p.1 p.2.1 p.2.2

/-! ## Palette generation -/

/-- Body of the `analogous` loop at index `i` (RGB level). -/
def analogous_rgb (h s l : ℤ) (count i : ℕ) : ℤ × ℤ × ℤ :=
  let step : ℚ := if 1 < count then 60 / ((count : ℚ) - 1) else 0
  hsl_to_rgb (pyMod ((h : ℚ) - 30 + (i : ℚ) * step) 360) (s : ℚ) (l : ℚ)

/-- Body of the `monochromatic` loop at index `i` (RGB level). -/
def mono_rgb (h s l : ℤ) (count i : ℕ) : ℤ × ℤ × ℤ :=
  let factor : ℚ := if 1 < count then (i : ℚ) / ((count : ℚ) - 1) else 0
  let ns := max 10 (min 100 ((s : ℚ) + (factor - 1/2) * 40))
  let nl := max 10 (min 90 ((l : ℚ) + (factor - 1/2) * 40))
  hsl_to_rgb (h : ℚ) ((pyInt ns : ℤ) : ℚ) ((pyInt nl : ℤ) : ℚ)

/-- The hue offsets `angles = [0, 120, 240]` of the `triadic` branch. -/
def triadicAngle : ℕ → ℚ
  | 0 => 0
  | 1 => 120
  | _ => 240

/-- Color appended by the `triadic` branch when the palette already holds
`pos` colors: the first three come from the `for` loop over `angles`, the
rest from the `while` loop (the palette grows by one per iteration, so the
iteration at length `pos` computes `base_idx = pos % 3` and
`factor = (pos // 3 + 1) * 0.2`). -/
def triadic_rgb (h s l : ℤ) (pos : ℕ) : ℤ × ℤ × ℤ :=
  if pos < 3 then hsl_to_rgb (pyMod ((h : ℚ) + triadicAngle pos) 360) (s : ℚ) (l : ℚ)
  else
    let factor : ℚ := ((pos / 3 + 1 : ℕ) : ℚ) * (1/5)
    let base_h := pyMod ((h : ℚ) + triadicAngle (pos % 3)) 360
    let nl := max 10 (min 90 ((l : ℚ) + factor * 40))
    hsl_to_rgb base_h (s : ℚ) ((pyInt nl : ℤ) : ℚ)

/-- `color_utils.generate_color_palette`.  Each loop appends exactly one
color per iteration (converted back to the caller's representation), so
each branch is the monadic map of its step function over the positions
`0, …, count-1`; an unrecognized `variation` falls through every branch
and returns the initial empty list. -/
def generate_color_palette (base_color : PyColor) (count : ℕ) (variation : String) :
    Except PyErr (List PyColor) := do
  let (r, g, b) ← unpackColor base_color
  let hsl := rgb_to_hsl r g b
  let put : ℤ × ℤ × ℤ → Except PyErr PyColor := fun t =>
    repackColor base_color.isHexStr t.1 t.2.1 t.2.2
  if variation = "analogous" then
    (List.range count).mapM (fun i => put (analogous_rgb hsl.1 hsl.2.1 hsl.2.2 count i))
  else if variation = "monochromatic" then
    (List.range count).mapM (fun i => put (mono_rgb hsl.1 hsl.2.1 hsl.2.2 count i))
  else if variation = "triadic" then
    (List.range count).mapM (fun pos => put (triadic_rgb hsl.1 hsl.2.1 hsl.2.2 pos))
  else pure []

/-! ## `is_dark_color`, with bit-faithful binary64 luminance -/

/-- `2 ^ e` over `ℚ` for an integer exponent. -/
def pow2z (e : ℤ) : ℚ := if 0 ≤ e then ((2 ^ e.toNat : ℕ) : ℚ) else 1 / ((2 ^ (-e).toNat : ℕ) : ℚ)

/-- Scale a positive rational by powers of two into `[2^52, 2^53)`,
returning the scaled value and the exponent taken out.  The fuel of 200
covers every magnitude reachable in this file. -/
def flScale : ℕ → ℚ → ℚ × ℤ
  | 0, q => (q, 0)
  | fuel + 1, q =>
    if q < 2 ^ 52 then
      let p := flScale fuel (q * 2); (p.1, p.2 - 1)
    else if 2 ^ 53 ≤ q then
      let p := flScale fuel (q / 2); (p.1, p.2 + 1)
    else (q, 0)

/-- Round a rational to the nearest IEEE-754 binary64 value
(53 significant bits, ties to even), for normal-range magnitudes. -/
def fl (q : ℚ) : ℚ :=
  if q = 0 then 0
  else
    let p := flScale 200 |q|
    let n0 := ⌊p.1⌋
    let fr := p.1 - (n0 : ℚ)
    let n : ℤ :=
      if fr < 1/2 then n0
      else if 1/2 < fr then n0 + 1
      else if n0 % 2 = 0 then n0 else n0 + 1
    (if q < 0 then -1 else 1) * (n : ℚ) * pow2z p.2

/-- The binary64 value of the literal `0.299`. -/
def lit299 : ℚ := fl (299/1000)

/-- The binary64 value of the literal `0.587`. -/
def lit587 : ℚ := fl (587/1000)

/-- The binary64 value of the literal `0.114`. -/
def lit114 : ℚ := fl (114/1000)

/-- `color_utils.is_dark_color`, with the luminance expression
`0.299 * r + 0.587 * g + 0.114 * b` evaluated left to right in binary64
arithmetic exactly as CPython does. -/
def is_dark_color (color : PyColor) (threshold : ℚ) : Except PyErr Bool := do
  let (r, g, b) ← unpackColor color
  let luminance := fl (fl (fl (lit299 * (r : ℚ)) + fl (lit587 * (g : ℚ))) + fl (lit114 * (b : ℚ)))
  pure (decide (luminance < threshold))

example : is_dark_color (.rgb (128, 128, 128)) 128 = .ok true := by with_unfolding_all decide
example : is_dark_color (.rgb (0, 0, 0)) 128 = .ok true := by with_unfolding_all decide
example : is_dark_color (.rgb (255, 255, 255)) 128 = .ok false := by with_unfolding_all decide

/-! ## Analysis helpers: the interpolation profile of `colorsys._v` -/

/-- The piecewise-linear interpolation weight of `colorsys._v` as a
function of the (already reduced) hue: `_v m1 m2 hue` equals
`m1 + (m2 - m1) * wfun (hue % 1)`. -/
def wfun (x : ℚ) : ℚ :=
  if x < 1/6 then 6 * x
  else if x < 1/2 then 1
  else if x < 2/3 then (2/3 - x) * 6
  else 0

/-- One channel of `hls_to_rgb`, written through `wfun`: lightness plus a
signed saturation swing.  `min l (1-l)` is the common value of
`(m2 - m1)/2` in both lightness branches. -/
def chanF (l s sh : ℚ) : ℚ := l + min l (1 - l) * s * (2 * wfun (pyMod sh 1) - 1)

/-- The valid inputs of the data model: a hex color is six hex digits with
an optional single leading `#`; an RGB color has all channels in `[0, 255]`. -/
def ValidPyColor : PyColor → Prop
  | .hex s => ∃ t : List Char,
      (s = t ∨ s = '#' :: t) ∧ t.length = 6 ∧ ∀ c ∈ t, (hexVal? c).isSome
  | .rgb t => 0 ≤ t.1 ∧ t.1 ≤ 255 ∧ 0 ≤ t.2.1 ∧ t.2.1 ≤ 255 ∧ 0 ≤ t.2.2 ∧ t.2.2 ≤ 255

/-! ## Helper lemmas: `pyInt` and `pyMod` -/

theorem pyInt_eq_floor {q : ℚ} (h : 0 ≤ q) : pyInt q = ⌊q⌋ := by
  unfold pyInt
  rw [if_neg (not_lt.mpr h)]

theorem pyInt_nonneg {q : ℚ} (h : 0 ≤ q) : 0 ≤ pyInt q := by
  rw [pyInt_eq_floor h]
  exact Int.floor_nonneg.mpr h

theorem pyInt_le {q : ℚ} {n : ℤ} (h0 : 0 ≤ q) (h : q ≤ (n : ℚ)) : pyInt q ≤ n := by
  rw [pyInt_eq_floor h0]
  have := Int.floor_le_floor h
  rwa [Int.floor_intCast] at this

theorem le_pyInt {q : ℚ} {n : ℤ} (h0 : 0 ≤ q) (h : (n : ℚ) ≤ q) : n ≤ pyInt q := by
  rw [pyInt_eq_floor h0]
  exact Int.le_floor.mpr h

theorem pyMod_one_eq_fract (a : ℚ) : pyMod a 1 = Int.fract a := by
  unfold pyMod Int.fract
  rw [div_one, one_mul]

theorem pyMod_compose (x c : ℚ) : pyMod (pyMod x 1 + c) 1 = pyMod (x + c) 1 := by
  rw [pyMod_one_eq_fract, pyMod_one_eq_fract, pyMod_one_eq_fract]
  have h1 : Int.fract x + c = x + c - ((⌊x⌋ : ℤ) : ℚ) := by
    rw [Int.fract]; ring
  rw [h1, Int.fract_sub_int]

theorem pyMod_eq_self {a : ℚ} (h0 : 0 ≤ a) (h1 : a < 1) : pyMod a 1 = a := by
  rw [pyMod_one_eq_fract]
  exact Int.fract_eq_self.mpr ⟨h0, h1⟩

theorem pyMod_eq_sub_one {a : ℚ} (h0 : 1 ≤ a) (h1 : a < 2) : pyMod a 1 = a - 1 := by
  rw [pyMod_one_eq_fract]
  have h2 : Int.fract (a - ((1 : ℤ) : ℚ)) = Int.fract a := Int.fract_sub_int a 1
  rw [← h2]
  have h3 : Int.fract (a - ((1 : ℤ) : ℚ)) = a - ((1 : ℤ) : ℚ) :=
    Int.fract_eq_self.mpr ⟨by push_cast; linarith, by push_cast; linarith⟩
  rw [h3]; push_cast; ring

theorem pyMod_eq_add_one {a : ℚ} (h0 : -1 ≤ a) (h1 : a < 0) : pyMod a 1 = a + 1 := by
  rw [pyMod_one_eq_fract]
  have h2 : Int.fract (a + ((1 : ℤ) : ℚ)) = Int.fract a := Int.fract_add_int a 1
  rw [← h2]
  have h3 : Int.fract (a + ((1 : ℤ) : ℚ)) = a + ((1 : ℤ) : ℚ) :=
    Int.fract_eq_self.mpr ⟨by push_cast; linarith, by push_cast; linarith⟩
  rw [h3]; push_cast; ring

theorem pyMod_nonneg {b : ℚ} (a : ℚ) (hb : 0 < b) : 0 ≤ pyMod a b := by
  unfold pyMod
  have h := Int.floor_le (a / b)
  have : b * (⌊a / b⌋ : ℚ) ≤ b * (a / b) := by
    exact mul_le_mul_of_nonneg_left h (le_of_lt hb)
  rw [mul_div_cancel₀ a (ne_of_gt hb)] at this
  linarith

theorem pyMod_lt {b : ℚ} (a : ℚ) (hb : 0 < b) : pyMod a b < b := by
  unfold pyMod
  have h := Int.lt_floor_add_one (a / b)
  have : b * (a / b) < b * ((⌊a / b⌋ : ℚ) + 1) := by
    exact mul_lt_mul_of_pos_left h hb
  rw [mul_div_cancel₀ a (ne_of_gt hb)] at this
  linarith

/-! ## Helper lemmas: characters and `int(s, 16)` parsing -/

theorem hexVal?_le {c : Char} {v : ℕ} (h : hexVal? c = some v) : v ≤ 15 := by
  unfold hexVal? at h
  split_ifs at h with h1 h2 h3 <;> simp only [Option.some.injEq] at h <;> omega

theorem hexVal?_ne {c : Char} {v : ℕ} (h : hexVal? c = some v)
    (d : Char) (hd : hexVal? d = none) : c ≠ d := by
  intro he
  rw [he, hd] at h
  exact Option.noConfusion h

theorem hexVal?_not_ws {c : Char} {v : ℕ} (h : hexVal? c = some v) : isPyWs c = false := by
  unfold isPyWs
  have h1 : c ≠ ' ' := hexVal?_ne h _ (by decide)
  have h2 : c ≠ '\t' := hexVal?_ne h _ (by decide)
  have h3 : c ≠ '\n' := hexVal?_ne h _ (by decide)
  have h4 : c ≠ '\x0d' := hexVal?_ne h _ (by decide)
  have h5 : c ≠ '\x0b' := hexVal?_ne h _ (by decide)
  have h6 : c ≠ '\x0c' := hexVal?_ne h _ (by decide)
  simp [h1, h2, h3, h4, h5, h6]

/-- Parsing a two-hex-digit slice with Python's `int(·, 16)`. -/
theorem pyInt16?_pair {c d : Char} {v w : ℕ} (hc : hexVal? c = some v)
    (hd : hexVal? d = some w) : pyInt16? [c, d] = some ((16 * v + w : ℕ) : ℤ) := by
  have hcw := hexVal?_not_ws hc
  have hdw := hexVal?_not_ws hd
  have hcp : ¬(c = '+') := hexVal?_ne hc _ (by decide)
  have hcm : ¬(c = '-') := hexVal?_ne hc _ (by decide)
  have hdu : ¬(d = '_') := hexVal?_ne hd _ (by decide)
  have hdx : ¬(d = 'x') := hexVal?_ne hd _ (by decide)
  have hdX : ¬(d = 'X') := hexVal?_ne hd _ (by decide)
  have hpre : ¬(c = '0' ∧ (d = 'x' ∨ d = 'X')) := by
    rintro ⟨-, hx | hX⟩
    · exact hdx hx
    · exact hdX hX
  have hstrip : ((([c, d].dropWhile isPyWs).reverse).dropWhile isPyWs).reverse = [c, d] := by
    simp [List.dropWhile, hcw, hdw]
  have hcore : hexCore [c, d] = some (16 * v + w) := by
    simp only [hexCore]
    rw [if_neg hpre]
    simp only [parseDigits16]
    rw [hc]
    show hexDigitsVal v [d] = some (16 * v + w)
    simp only [hexDigitsVal]
    rw [if_neg hdu, hd]
  unfold pyInt16?
  rw [hstrip]
  simp only [if_neg hcp, if_neg hcm, hcore, Option.map_some']
  rfl

/-- The value of a two-hex-digit slice is a valid channel. -/
theorem pair_le_255 {v w : ℕ} (hv : v ≤ 15) (hw : w ≤ 15) : 16 * v + w ≤ 255 := by omega

theorem list_len_six {α : Type} {t : List α} (h : t.length = 6) :
    ∃ a b c d e f, t = [a, b, c, d, e, f] := by
  rcases t with _ | ⟨a, _ | ⟨b, _ | ⟨c, _ | ⟨d, _ | ⟨e, _ | ⟨f, _ | ⟨g, t⟩⟩⟩⟩⟩⟩⟩
  all_goals simp only [List.length_cons, List.length_nil] at h
  all_goals first
    | omega
    | exact ⟨a, b, c, d, e, f, rfl⟩

/-- `hex_to_rgb` on a string whose `#`-stripped form is six hex digits. -/
theorem hex_to_rgb_eq_of_digits {s : List Char} {c0 c1 c2 c3 c4 c5 : Char}
    {v0 v1 v2 v3 v4 v5 : ℕ}
    (hs : s.dropWhile (· = '#') = [c0, c1, c2, c3, c4, c5])
    (h0 : hexVal? c0 = some v0) (h1 : hexVal? c1 = some v1)
    (h2 : hexVal? c2 = some v2) (h3 : hexVal? c3 = some v3)
    (h4 : hexVal? c4 = some v4) (h5 : hexVal? c5 = some v5) :
    hex_to_rgb s =
      .ok (((16 * v0 + v1 : ℕ) : ℤ), ((16 * v2 + v3 : ℕ) : ℤ), ((16 * v4 + v5 : ℕ) : ℤ)) := by
  unfold hex_to_rgb
  rw [hs]
  rw [if_pos (show ([c0, c1, c2, c3, c4, c5] : List Char).length = 6 from rfl)]
  have e1 : ([c0, c1, c2, c3, c4, c5] : List Char).take 2 = [c0, c1] := rfl
  have e2 : (([c0, c1, c2, c3, c4, c5] : List Char).drop 2).take 2 = [c2, c3] := rfl
  have e3 : (([c0, c1, c2, c3, c4, c5] : List Char).drop 4).take 2 = [c4, c5] := rfl
  rw [e1, e2, e3, pyInt16?_pair h0 h1, pyInt16?_pair h2 h3, pyInt16?_pair h4 h5]

theorem valid_hex_strip {s t : List Char} (hst : s = t ∨ s = '#' :: t)
    (hlen : t.length = 6) (hhex : ∀ c ∈ t, (hexVal? c).isSome) :
    s.dropWhile (· = '#') = t := by
  obtain ⟨c0, c1, c2, c3, c4, c5, rfl⟩ := list_len_six hlen
  obtain ⟨v0, hv0⟩ := Option.isSome_iff_exists.mp (hhex c0 (by simp))
  have hne : ¬(c0 = '#') := hexVal?_ne hv0 _ (by decide)
  rcases hst with rfl | rfl
  · simp [List.dropWhile, hne]
  · simp [List.dropWhile, hne]

theorem unpackColor_valid {c : PyColor} (h : ValidPyColor c) :
    ∃ r g b : ℤ, unpackColor c = .ok (r, g, b) ∧
      0 ≤ r ∧ r ≤ 255 ∧ 0 ≤ g ∧ g ≤ 255 ∧ 0 ≤ b ∧ b ≤ 255 := by
  cases c with
  | rgb t =>
    obtain ⟨h1, h2, h3, h4, h5, h6⟩ := h
    exact ⟨t.1, t.2.1, t.2.2, rfl, h1, h2, h3, h4, h5, h6⟩
  | hex s =>
    obtain ⟨t, hst, hlen, hhex⟩ := h
    have hs := valid_hex_strip hst hlen hhex
    obtain ⟨c0, c1, c2, c3, c4, c5, rfl⟩ := list_len_six hlen
    obtain ⟨v0, hv0⟩ := Option.isSome_iff_exists.mp (hhex c0 (by simp))
    obtain ⟨v1, hv1⟩ := Option.isSome_iff_exists.mp (hhex c1 (by simp))
    obtain ⟨v2, hv2⟩ := Option.isSome_iff_exists.mp (hhex c2 (by simp))
    obtain ⟨v3, hv3⟩ := Option.isSome_iff_exists.mp (hhex c3 (by simp))
    obtain ⟨v4, hv4⟩ := Option.isSome_iff_exists.mp (hhex c4 (by simp))
    obtain ⟨v5, hv5⟩ := Option.isSome_iff_exists.mp (hhex c5 (by simp))
    refine ⟨_, _, _, hex_to_rgb_eq_of_digits hs hv0 hv1 hv2 hv3 hv4 hv5, ?_, ?_, ?_, ?_, ?_, ?_⟩
    · positivity
    · exact_mod_cast pair_le_255 (hexVal?_le hv0) (hexVal?_le hv1)
    · positivity
    · exact_mod_cast pair_le_255 (hexVal?_le hv2) (hexVal?_le hv3)
    · positivity
    · exact_mod_cast pair_le_255 (hexVal?_le hv4) (hexVal?_le hv5)

theorem repackColor_ok {ih : Bool} {r g b : ℤ}
    (hr1 : 0 ≤ r) (hr2 : r ≤ 255) (hg1 : 0 ≤ g) (hg2 : g ≤ 255)
    (hb1 : 0 ≤ b) (hb2 : b ≤ 255) :
    ∃ c', repackColor ih r g b = .ok c' ∧ c'.isHexStr = ih := by
  cases ih with
  | false => exact ⟨.rgb (r, g, b), rfl, rfl⟩
  | true =>
    refine ⟨.hex ('#' :: (toHex2 r ++ toHex2 g ++ toHex2 b)), ?_, rfl⟩
    unfold repackColor rgb_to_hex
    simp [hr1, hr2, hg1, hg2, hb1, hb2, Except.map]

theorem except_bind_ok {ε α β : Type} (a : α) (f : α → Except ε β) :
    (Except.ok a : Except ε α) >>= f = f a := rfl

theorem dropWhile_replicate_hash (n : ℕ) (s : List Char) :
    (List.replicate n '#' ++ s).dropWhile (· = '#') = s.dropWhile (· = '#') := by
  induction n with
  | zero => simp
  | succ n ih => simp [List.replicate_succ, List.dropWhile, ih]

/-! ## Helper lemmas: ranges of the conversion functions -/

theorem pyInt_lt {q : ℚ} {n : ℤ} (h0 : 0 ≤ q) (h : q < (n : ℚ)) : pyInt q < n := by
  rw [pyInt_eq_floor h0]
  exact Int.floor_lt.mpr h

theorem rgb_to_hls_mem {r g b : ℚ} (hr0 : 0 ≤ r) (hr1 : r ≤ 1) (hg0 : 0 ≤ g) (hg1 : g ≤ 1)
    (hb0 : 0 ≤ b) (hb1 : b ≤ 1) :
    (0 ≤ (rgb_to_hls r g b).1 ∧ (rgb_to_hls r g b).1 < 1) ∧
    (0 ≤ (rgb_to_hls r g b).2.1 ∧ (rgb_to_hls r g b).2.1 ≤ 1) ∧
    (0 ≤ (rgb_to_hls r g b).2.2 ∧ (rgb_to_hls r g b).2.2 ≤ 1) := by
  have hm0 : 0 ≤ min r (min g b) := le_min hr0 (le_min hg0 hb0)
  have hM1 : max r (max g b) ≤ 1 := max_le hr1 (max_le hg1 hb1)
  have hmM : min r (min g b) ≤ max r (max g b) :=
    (min_le_left r (min g b)).trans (le_max_left r (max g b))
  simp only [rgb_to_hls]
  by_cases heq : min r (min g b) = max r (max g b)
  · rw [if_pos heq]
    refine ⟨⟨le_refl 0, one_pos⟩, ⟨?_, ?_⟩, le_refl 0, zero_le_one⟩
    · show (0 : ℚ) ≤ (min r (min g b) + max r (max g b)) / 2
      linarith
    · show (min r (min g b) + max r (max g b)) / 2 ≤ 1
      linarith
  · rw [if_neg heq]
    have hlt : min r (min g b) < max r (max g b) := lt_of_le_of_ne hmM heq
    refine ⟨⟨pyMod_nonneg _ one_pos, pyMod_lt _ one_pos⟩, ⟨?_, ?_⟩, ?_⟩
    · show (0 : ℚ) ≤ (min r (min g b) + max r (max g b)) / 2
      linarith
    · show (min r (min g b) + max r (max g b)) / 2 ≤ 1
      linarith
    · show 0 ≤ (if (min r (min g b) + max r (max g b)) / 2 ≤ 1/2
          then (max r (max g b) - min r (min g b)) / (max r (max g b) + min r (min g b))
          else (max r (max g b) - min r (min g b)) / (2 - (max r (max g b) + min r (min g b)))) ∧
        (if (min r (min g b) + max r (max g b)) / 2 ≤ 1/2
          then (max r (max g b) - min r (min g b)) / (max r (max g b) + min r (min g b))
          else (max r (max g b) - min r (min g b)) / (2 - (max r (max g b) + min r (min g b)))) ≤ 1
      split_ifs with hl
      · have hs : 0 < max r (max g b) + min r (min g b) := by linarith
        refine ⟨div_nonneg (by linarith) (le_of_lt hs), ?_⟩
        rw [div_le_one hs]
        linarith
      · have hs : 0 < 2 - (max r (max g b) + min r (min g b)) := by
          have : min r (min g b) < 1 := lt_of_lt_of_le hlt hM1
          linarith
        refine ⟨div_nonneg (by linarith) (le_of_lt hs), ?_⟩
        rw [div_le_one hs]
        linarith

theorem _v_eq (m1 m2 hue : ℚ) : _v m1 m2 hue = m1 + (m2 - m1) * wfun (pyMod hue 1) := by
  simp only [_v, wfun]
  split_ifs <;> ring

theorem hls_to_rgb_eq (h l s : ℚ) :
    hls_to_rgb h l s = (chanF l s (h + 1/3), chanF l s h, chanF l s (h - 1/3)) := by
  simp only [hls_to_rgb, chanF]
  split_ifs with hs0 hl
  · subst hs0
    refine Prod.ext ?_ (Prod.ext ?_ ?_) <;> simp
  · have hmin : min l (1 - l) = l := min_eq_left (by linarith)
    refine Prod.ext ?_ (Prod.ext ?_ ?_) <;> simp only [_v_eq, hmin] <;> ring
  · have hmin : min l (1 - l) = 1 - l := min_eq_right (by linarith)
    refine Prod.ext ?_ (Prod.ext ?_ ?_) <;> simp only [_v_eq, hmin] <;> ring

theorem wfun_mem {x : ℚ} (h0 : 0 ≤ x) (h1 : x < 1) : 0 ≤ wfun x ∧ wfun x ≤ 1 := by
  unfold wfun
  split_ifs <;> constructor <;> linarith

theorem chanF_mem {l s : ℚ} (hl0 : 0 ≤ l) (hl1 : l ≤ 1) (hs0 : 0 ≤ s) (hs1 : s ≤ 1)
    (sh : ℚ) : 0 ≤ chanF l s sh ∧ chanF l s sh ≤ 1 := by
  unfold chanF
  obtain ⟨hw0, hw1⟩ := wfun_mem (pyMod_nonneg sh one_pos) (pyMod_lt sh one_pos)
  set w := wfun (pyMod sh 1) with hw
  rcases min_cases l (1 - l) with ⟨hmin, hcase⟩ | ⟨hmin, hcase⟩ <;> rw [hmin]
  · have e1 : 0 ≤ l * s := mul_nonneg hl0 hs0
    have e2 : l * s ≤ l := mul_le_of_le_one_right hl0 hs1
    have e3 : 0 ≤ l * s * w := mul_nonneg e1 hw0
    have e4 : l * s * w ≤ l * s := mul_le_of_le_one_right e1 hw1
    constructor <;> nlinarith
  · have hl' : (0 : ℚ) ≤ 1 - l := by linarith
    have e1 : 0 ≤ (1 - l) * s := mul_nonneg hl' hs0
    have e2 : (1 - l) * s ≤ 1 - l := mul_le_of_le_one_right hl' hs1
    have e3 : 0 ≤ (1 - l) * s * w := mul_nonneg e1 hw0
    have e4 : (1 - l) * s * w ≤ (1 - l) * s := mul_le_of_le_one_right e1 hw1
    constructor <;> nlinarith

/-- The output channels of `hsl_to_rgb` lie in `[0, 255]` whenever the
saturation and lightness are in `[0, 100]`; the hue is arbitrary (the
interpolation reduces it modulo 1). -/
theorem hsl_to_rgb_range {s l : ℚ} (hs0 : 0 ≤ s) (hs1 : s ≤ 100) (hl0 : 0 ≤ l)
    (hl1 : l ≤ 100) (h : ℚ) :
    (0 ≤ (hsl_to_rgb h s l).1 ∧ (hsl_to_rgb h s l).1 ≤ 255) ∧
    (0 ≤ (hsl_to_rgb h s l).2.1 ∧ (hsl_to_rgb h s l).2.1 ≤ 255) ∧
    (0 ≤ (hsl_to_rgb h s l).2.2 ∧ (hsl_to_rgb h s l).2.2 ≤ 255) := by
  unfold hsl_to_rgb
  rw [hls_to_rgb_eq]
  have hl0' : 0 ≤ l / 100 := by positivity
  have hl1' : l / 100 ≤ 1 := by linarith
  have hs0' : 0 ≤ s / 100 := by positivity
  have hs1' : s / 100 ≤ 1 := by linarith
  have k1 := chanF_mem hl0' hl1' hs0' hs1' (h / 360 + 1/3)
  have k2 := chanF_mem hl0' hl1' hs0' hs1' (h / 360)
  have k3 := chanF_mem hl0' hl1' hs0' hs1' (h / 360 - 1/3)
  refine ⟨⟨?_, ?_⟩, ⟨?_, ?_⟩, ⟨?_, ?_⟩⟩
  · exact pyInt_nonneg (by nlinarith [k1.1])
  · exact pyInt_le (by nlinarith [k1.1]) (by push_cast; nlinarith [k1.2])
  · exact pyInt_nonneg (by nlinarith [k2.1])
  · exact pyInt_le (by nlinarith [k2.1]) (by push_cast; nlinarith [k2.2])
  · exact pyInt_nonneg (by nlinarith [k3.1])
  · exact pyInt_le (by nlinarith [k3.1]) (by push_cast; nlinarith [k3.2])

/-- The HSL triple of a valid RGB triple: `H ∈ [0, 359]`, `S, L ∈ [0, 100]`. -/
theorem rgb_to_hsl_range {r g b : ℤ} (hr0 : 0 ≤ r) (hr1 : r ≤ 255) (hg0 : 0 ≤ g)
    (hg1 : g ≤ 255) (hb0 : 0 ≤ b) (hb1 : b ≤ 255) :
    (0 ≤ (rgb_to_hsl r g b).1 ∧ (rgb_to_hsl r g b).1 ≤ 359) ∧
    (0 ≤ (rgb_to_hsl r g b).2.1 ∧ (rgb_to_hsl r g b).2.1 ≤ 100) ∧
    (0 ≤ (rgb_to_hsl r g b).2.2 ∧ (rgb_to_hsl r g b).2.2 ≤ 100) := by
  have c1 : ((r : ℚ) / 255 ≥ 0) := by positivity
  have c2 : ((r : ℚ) / 255 ≤ 1) := by
    rw [div_le_one (by norm_num)]; exact_mod_cast hr1
  have c3 : ((g : ℚ) / 255 ≥ 0) := by positivity
  have c4 : ((g : ℚ) / 255 ≤ 1) := by
    rw [div_le_one (by norm_num)]; exact_mod_cast hg1
  have c5 : ((b : ℚ) / 255 ≥ 0) := by positivity
  have c6 : ((b : ℚ) / 255 ≤ 1) := by
    rw [div_le_one (by norm_num)]; exact_mod_cast hb1
  obtain ⟨⟨h0, h1⟩, ⟨l0, l1⟩, s0, s1⟩ := rgb_to_hls_mem c1 c2 c3 c4 c5 c6
  have hH : pyInt ((rgb_to_hls ((r : ℚ) / 255) ((g : ℚ) / 255) ((b : ℚ) / 255)).1 * 360) < 360 :=
    pyInt_lt (by nlinarith) (by push_cast; nlinarith)
  simp only [rgb_to_hsl]
  refine ⟨⟨pyInt_nonneg (by nlinarith), by omega⟩,
    ⟨pyInt_nonneg (by nlinarith), pyInt_le (by nlinarith) (by push_cast; nlinarith)⟩,
    ⟨pyInt_nonneg (by nlinarith), pyInt_le (by nlinarith) (by push_cast; nlinarith)⟩⟩

/-- Monadic map over `Except`: if every element succeeds, the whole map
succeeds, preserves length, and maps positions pointwise. -/
theorem mapM_ok_of_forall {α β : Type} (f : α → Except PyErr β) (l : List α)
    (hall : ∀ a ∈ l, ∃ b, f a = .ok b) :
    ∃ ys : List β, l.mapM f = .ok ys ∧ ys.length = l.length ∧
      ∀ (i : ℕ) (a : α), l[i]? = some a → ∃ b, ys[i]? = some b ∧ f a = .ok b := by
  induction l with
  | nil =>
    refine ⟨[], rfl, rfl, ?_⟩
    intro i a h
    simp at h
  | cons a l ih =>
    obtain ⟨b, hb⟩ := hall a (List.mem_cons_self a l)
    obtain ⟨ys, hys, hlen, hget⟩ := ih (fun x hx => hall x (List.mem_cons_of_mem _ hx))
    refine ⟨b :: ys, ?_, by simp [hlen], ?_⟩
    · rw [List.mapM_cons, hb, except_bind_ok, hys, except_bind_ok]
      rfl
    · intro i x hx
      cases i with
      | zero =>
        simp only [List.getElem?_cons_zero, Option.some.injEq] at hx
        subst hx
        exact ⟨b, by simp, hb⟩
      | succ n =>
        simp only [List.getElem?_cons_succ] at hx ⊢
        exact hget n x hx

/-! ## Claim C8 -/

/-- C8, counterexample: contrary to the claim,
`is_dark_color((128,128,128), threshold=128)` returns `True`, because the
binary64 luminance `0.299*128 + 0.587*128 + 0.114*128` evaluates to
`127.99999999999999 < 128` (the decimal coefficients are not exactly
representable). -/
theorem claim_C8_counterexample :
    is_dark_color (.rgb (128, 128, 128)) 128 = .ok true ∧
    ¬ is_dark_color (.rgb (128, 128, 128)) 128 = .ok false := by
  constructor
  · with_unfolding_all decide
  · with_unfolding_all decide

/-- C8, amended: `is_dark_color((0,0,0))` is true and
`is_dark_color((255,255,255))` is false (threshold 128), but
`is_dark_color((128,128,128), threshold=128)` is **true**: the float
luminance falls just below 128 rather than hitting it exactly. -/
theorem claim_C8 :
    is_dark_color (.rgb (0, 0, 0)) 128 = .ok true ∧
    is_dark_color (.rgb (255, 255, 255)) 128 = .ok false ∧
    is_dark_color (.rgb (128, 128, 128)) 128 = .ok true := by
  refine ⟨?_, ?_, ?_⟩ <;> with_unfolding_all decide

/-! ## Claim C9 -/

/-- C9: `hex_to_rgb` strips every leading `#` (Python `lstrip`), so
prepending any number of `#` characters never changes the result; in
particular `"##FF0000"` parses to `(255, 0, 0)`. -/
theorem claim_C9 :
    (∀ (s : List Char) (n : ℕ), 1 ≤ n →
      hex_to_rgb (List.replicate n '#' ++ s) = hex_to_rgb s) ∧
    hex_to_rgb ("##FF0000".toList) = .ok (255, 0, 0) := by
  constructor
  · intro s n _
    unfold hex_to_rgb
    rw [dropWhile_replicate_hash]
  · with_unfolding_all decide

/-- C9, witness. -/
theorem claim_C9_witness :
    hex_to_rgb (List.replicate 2 '#' ++ "FF0000".toList) = hex_to_rgb ("FF0000".toList) :=
  claim_C9.1 ("FF0000".toList) 2 (by norm_num)

/-! ## Claim C2 -/

/-- C2, counterexample: the claimed "if and only if" fails in the `if`
direction.  `"+1+2+3"` has length 6 after stripping and contains
non-hexadecimal characters, yet `hex_to_rgb` accepts it and returns
`(1, 2, 3)`, because Python's `int(s, 16)` tolerates a sign inside each
2-character group. -/
theorem claim_C2_counterexample :
    hex_to_rgb ("+1+2+3".toList) = .ok (1, 2, 3) ∧
    (("+1+2+3".toList).dropWhile (· = '#')).length = 6 ∧
    ¬ ∀ c ∈ ("+1+2+3".toList).dropWhile (· = '#'), (hexVal? c).isSome := by
  refine ⟨?_, ?_, ?_⟩ <;> with_unfolding_all decide

/-- C2, amended: `hex_to_rgb` raises `ValueError` whenever the stripped
string's length is not 6, and on six hexadecimal digits it returns the
three 2-digit groups; but the converse of the error condition fails:
some length-6 strings with non-hex characters (sign or whitespace inside
a 2-character group) are still accepted. -/
theorem claim_C2 :
    (∀ s : List Char, (s.dropWhile (· = '#')).length ≠ 6 →
      hex_to_rgb s = .error .valueError) ∧
    (∀ (s : List Char) (c0 c1 c2 c3 c4 c5 : Char) (v0 v1 v2 v3 v4 v5 : ℕ),
      s.dropWhile (· = '#') = [c0, c1, c2, c3, c4, c5] →
      hexVal? c0 = some v0 → hexVal? c1 = some v1 →
      hexVal? c2 = some v2 → hexVal? c3 = some v3 →
      hexVal? c4 = some v4 → hexVal? c5 = some v5 →
      hex_to_rgb s =
        .ok (((16 * v0 + v1 : ℕ) : ℤ), ((16 * v2 + v3 : ℕ) : ℤ), ((16 * v4 + v5 : ℕ) : ℤ))) := by
  constructor
  · intro s h
    unfold hex_to_rgb
    rw [if_neg h]
  · intro s c0 c1 c2 c3 c4 c5 v0 v1 v2 v3 v4 v5 hs h0 h1 h2 h3 h4 h5
    exact hex_to_rgb_eq_of_digits hs h0 h1 h2 h3 h4 h5

/-- C2, witness. -/
theorem claim_C2_witness :
    hex_to_rgb ("12345".toList) = .error .valueError ∧
    hex_to_rgb ("#A1B2C3".toList) = .ok (161, 178, 195) := by
  constructor
  · exact claim_C2.1 ("12345".toList) (by with_unfolding_all decide)
  · have h := claim_C2.2 ("#A1B2C3".toList) 'A' '1' 'B' '2' 'C' '3' 10 1 11 2 12 3
      (by decide) (by decide) (by decide) (by decide) (by decide) (by decide) (by decide)
    exact h.trans (by decide)

/-! ## Claim C4 -/

/-- C4: with a valid base color, a `variation` other than `"analogous"`,
`"monochromatic"` or `"triadic"` raises nothing and produces the empty
palette (no branch matches, the initial empty list is returned). -/
theorem claim_C4 :
    ∀ (base : PyColor) (count : ℕ) (variation : String),
      ValidPyColor base →
      variation ≠ "analogous" → variation ≠ "monochromatic" → variation ≠ "triadic" →
      generate_color_palette base count variation = .ok [] := by
  intro base count variation hv h1 h2 h3
  obtain ⟨r, g, b, hunpack, -⟩ := unpackColor_valid hv
  unfold generate_color_palette
  rw [hunpack]
  simp only [except_bind_ok, if_neg h1, if_neg h2, if_neg h3]
  rfl

/-- C4, witness. -/
theorem claim_C4_witness :
    generate_color_palette (.rgb (10, 20, 30)) 5 "sporadic" = .ok [] :=
  claim_C4 (.rgb (10, 20, 30)) 5 "sporadic"
    ⟨by norm_num, by norm_num, by norm_num, by norm_num, by norm_num, by norm_num⟩
    (by decide) (by decide) (by decide)

/-! ## Claim C1: analysis of the truncated round trip -/

theorem pyMod_pyMod (x : ℚ) : pyMod (pyMod x 1) 1 = pyMod x 1 := by
  rw [pyMod_one_eq_fract, pyMod_one_eq_fract, Int.fract_fract]

theorem wfun_eq_one {x : ℚ} (h1 : 1/6 ≤ x) (h2 : x ≤ 1/2) : wfun x = 1 := by
  unfold wfun
  split_ifs <;> first | rfl | linarith

theorem wfun_eq_lin {x : ℚ} (h1 : 0 ≤ x) (h2 : x ≤ 1/6) : wfun x = 6 * x := by
  unfold wfun
  split_ifs <;> first | rfl | linarith

theorem wfun_eq_desc {x : ℚ} (h1 : 1/2 ≤ x) (h2 : x ≤ 2/3) : wfun x = (2/3 - x) * 6 := by
  unfold wfun
  split_ifs <;> first | rfl | linarith

theorem wfun_eq_zero {x : ℚ} (h1 : 2/3 ≤ x) : wfun x = 0 := by
  unfold wfun
  split_ifs <;> first | rfl | linarith

/-- `wfun` changes by at most `6 δ` under a forward shift `δ ≤ 1/360`
inside a single period. -/
theorem wfun_lip {a d : ℚ} (ha0 : 0 ≤ a) (hd0 : 0 ≤ d) (hd1 : d ≤ 1/360)
    (hb1 : a + d < 1) : |wfun (a + d) - wfun a| ≤ 6 * d := by
  rw [abs_le]
  constructor <;> (unfold wfun; split_ifs <;> linarith)

/-- `wfun ∘ (· % 1)` changes by at most `6 δ` under a forward shift
`δ ≤ 1/360`, including at the wrap-around. -/
theorem wfun_close {x d : ℚ} (hd0 : 0 ≤ d) (hd1 : d ≤ 1/360) :
    |wfun (pyMod (x + d) 1) - wfun (pyMod x 1)| ≤ 6 * d := by
  have ha0 : 0 ≤ pyMod x 1 := pyMod_nonneg x one_pos
  have ha1 : pyMod x 1 < 1 := pyMod_lt x one_pos
  have hx : pyMod (x + d) 1 = pyMod (pyMod x 1 + d) 1 := (pyMod_compose x d).symm
  rw [hx]
  by_cases hw : pyMod x 1 + d < 1
  · rw [pyMod_eq_self (by linarith) hw]
    exact wfun_lip ha0 hd0 hd1 hw
  · rw [pyMod_eq_sub_one (by linarith) (by linarith)]
    rw [wfun_eq_zero (by linarith : 2/3 ≤ pyMod x 1)]
    rw [wfun_eq_lin (by linarith) (by linarith)]
    rw [sub_zero, abs_of_nonneg (by linarith)]
    linarith

/-- The saturation swing amplitude `min l (1-l)` is 1-Lipschitz. -/
theorem abs_minA_sub {l l2 : ℚ} :
    |min l2 (1 - l2) - min l (1 - l)| ≤ |l2 - l| := by
  rcases min_cases l2 (1 - l2) with ⟨e2, c2⟩ | ⟨e2, c2⟩ <;>
    rcases min_cases l (1 - l) with ⟨e1, c1⟩ | ⟨e1, c1⟩ <;> rw [e1, e2] <;> rw [abs_le] <;>
    constructor <;> rcases abs_cases (l2 - l) with ⟨h, h'⟩ | ⟨h, h'⟩ <;> rw [h] <;> linarith

/-- Perturbation bound for one channel: truncating lightness and
saturation by less than one percent each and the hue by at most 1/360
moves the channel by less than 1/24. -/
theorem chanF_close {l s l2 s2 x d : ℚ}
    (hl20 : 0 ≤ l2) (hl2l : l2 ≤ l) (hl1 : l ≤ 1) (hldiff : l - l2 < 1/100)
    (hs20 : 0 ≤ s2) (hs2s : s2 ≤ s) (hs1 : s ≤ 1) (hsdiff : s - s2 < 1/100)
    (hd0 : 0 ≤ d) (hd1 : d ≤ 1/360) :
    |chanF l2 s2 x - chanF l s (x + d)| < 1/24 := by
  unfold chanF
  have hw20 : 0 ≤ wfun (pyMod x 1) := (wfun_mem (pyMod_nonneg x one_pos) (pyMod_lt x one_pos)).1
  have hw21 : wfun (pyMod x 1) ≤ 1 := (wfun_mem (pyMod_nonneg x one_pos) (pyMod_lt x one_pos)).2
  have hw0 : 0 ≤ wfun (pyMod (x + d) 1) :=
    (wfun_mem (pyMod_nonneg (x + d) one_pos) (pyMod_lt (x + d) one_pos)).1
  have hw1 : wfun (pyMod (x + d) 1) ≤ 1 :=
    (wfun_mem (pyMod_nonneg (x + d) one_pos) (pyMod_lt (x + d) one_pos)).2
  have hwd : |wfun (pyMod (x + d) 1) - wfun (pyMod x 1)| ≤ 6 * d := wfun_close hd0 hd1
  have habs_l : |l2 - l| = l - l2 := by
    rw [abs_sub_comm, abs_of_nonneg (by linarith)]
  have hA2a : |min l2 (1 - l2) - min l (1 - l)| ≤ l - l2 := by
    rw [← habs_l]; exact abs_minA_sub
  have hA20 : 0 ≤ min l2 (1 - l2) := le_min hl20 (by linarith)
  have hA2h : min l2 (1 - l2) ≤ 1/2 := by
    rcases min_cases l2 (1 - l2) with ⟨e, c⟩ | ⟨e, c⟩ <;> rw [e] <;> linarith
  have hA0 : 0 ≤ min l (1 - l) := le_min (by linarith) (by linarith)
  have hAh : min l (1 - l) ≤ 1/2 := by
    rcases min_cases l (1 - l) with ⟨e, c⟩ | ⟨e, c⟩ <;> rw [e] <;> linarith
  have ht1 : |(min l2 (1 - l2) - min l (1 - l)) * s2 * (2 * wfun (pyMod x 1) - 1)| ≤ l - l2 := by
    rw [abs_mul, abs_mul]
    have e2 : |s2| ≤ 1 := abs_le.mpr ⟨by linarith, by linarith⟩
    have e3 : |2 * wfun (pyMod x 1) - 1| ≤ 1 := abs_le.mpr ⟨by linarith, by linarith⟩
    calc |min l2 (1 - l2) - min l (1 - l)| * |s2| * |2 * wfun (pyMod x 1) - 1|
        ≤ (l - l2) * 1 * 1 := by
          apply mul_le_mul _ e3 (abs_nonneg _) (by linarith)
          exact mul_le_mul hA2a e2 (abs_nonneg _) (by linarith)
      _ = l - l2 := by ring
  have ht2 : |min l (1 - l) * (s2 - s) * (2 * wfun (pyMod x 1) - 1)| ≤ (1/2) * (s - s2) := by
    rw [abs_mul, abs_mul]
    have e1 : |min l (1 - l)| ≤ 1/2 := abs_le.mpr ⟨by linarith, hAh⟩
    have e2 : |s2 - s| = s - s2 := by rw [abs_sub_comm, abs_of_nonneg (by linarith)]
    have e3 : |2 * wfun (pyMod x 1) - 1| ≤ 1 := abs_le.mpr ⟨by linarith, by linarith⟩
    calc |min l (1 - l)| * |s2 - s| * |2 * wfun (pyMod x 1) - 1|
        ≤ (1/2) * (s - s2) * 1 := by
          apply mul_le_mul _ e3 (abs_nonneg _) (mul_nonneg (by norm_num) (by linarith))
          rw [e2]
          exact mul_le_mul e1 (le_refl _) (by rw [← e2]; exact abs_nonneg _) (by norm_num)
      _ = (1/2) * (s - s2) := by ring
  have ht3 : |min l (1 - l) * s *
      (2 * wfun (pyMod x 1) - 1 - (2 * wfun (pyMod (x + d) 1) - 1))| ≤ 6 * d := by
    rw [abs_mul]
    have e1 : |min l (1 - l) * s| ≤ 1/2 := by
      rw [abs_mul]
      have q1 : |min l (1 - l)| ≤ 1/2 := abs_le.mpr ⟨by linarith, hAh⟩
      have q2 : |s| ≤ 1 := abs_le.mpr ⟨by linarith, by linarith⟩
      calc |min l (1 - l)| * |s| ≤ (1/2) * 1 :=
            mul_le_mul q1 q2 (abs_nonneg _) (by norm_num)
        _ = 1/2 := by ring
    have e2 : |2 * wfun (pyMod x 1) - 1 - (2 * wfun (pyMod (x + d) 1) - 1)| ≤ 2 * (6 * d) := by
      have : 2 * wfun (pyMod x 1) - 1 - (2 * wfun (pyMod (x + d) 1) - 1) =
          2 * (wfun (pyMod x 1) - wfun (pyMod (x + d) 1)) := by ring
      rw [this, abs_mul, abs_sub_comm]
      have : |(2 : ℚ)| = 2 := by norm_num
      rw [this]
      linarith
    calc |min l (1 - l) * s| *
        |2 * wfun (pyMod x 1) - 1 - (2 * wfun (pyMod (x + d) 1) - 1)|
        ≤ (1/2) * (2 * (6 * d)) := by
          apply mul_le_mul e1 e2 (abs_nonneg _) (by norm_num)
      _ = 6 * d := by ring
  have hsplit : l2 + min l2 (1 - l2) * s2 * (2 * wfun (pyMod x 1) - 1) -
      (l + min l (1 - l) * s * (2 * wfun (pyMod (x + d) 1) - 1)) =
      (l2 - l) + ((min l2 (1 - l2) - min l (1 - l)) * s2 * (2 * wfun (pyMod x 1) - 1) +
        (min l (1 - l) * (s2 - s) * (2 * wfun (pyMod x 1) - 1) +
          min l (1 - l) * s *
            (2 * wfun (pyMod x 1) - 1 - (2 * wfun (pyMod (x + d) 1) - 1)))) := by
    ring
  rw [hsplit]
  have hb1 := abs_add (l2 - l)
    ((min l2 (1 - l2) - min l (1 - l)) * s2 * (2 * wfun (pyMod x 1) - 1) +
      (min l (1 - l) * (s2 - s) * (2 * wfun (pyMod x 1) - 1) +
        min l (1 - l) * s * (2 * wfun (pyMod x 1) - 1 - (2 * wfun (pyMod (x + d) 1) - 1))))
  have hb2 := abs_add
    ((min l2 (1 - l2) - min l (1 - l)) * s2 * (2 * wfun (pyMod x 1) - 1))
    (min l (1 - l) * (s2 - s) * (2 * wfun (pyMod x 1) - 1) +
      min l (1 - l) * s * (2 * wfun (pyMod x 1) - 1 - (2 * wfun (pyMod (x + d) 1) - 1)))
  have hb3 := abs_add
    (min l (1 - l) * (s2 - s) * (2 * wfun (pyMod x 1) - 1))
    (min l (1 - l) * s * (2 * wfun (pyMod x 1) - 1 - (2 * wfun (pyMod (x + d) 1) - 1)))
  have hfirst : |l2 - l| = l - l2 := habs_l
  linarith

/-- Final truncation: a channel computed from a value within `1/24` of
`c/255` lands within `±11` of `c`. -/
theorem chan_result_bound {F2 : ℚ} {c : ℤ} (hF0 : 0 ≤ F2)
    (hdiff : |F2 - (c : ℚ)/255| < 1/24) : |pyInt (F2 * 255) - c| ≤ 11 := by
  rw [pyInt_eq_floor (by positivity)]
  rw [abs_lt] at hdiff
  have h1 : (⌊F2 * 255⌋ : ℚ) ≤ F2 * 255 := Int.floor_le _
  have h2 : F2 * 255 < (⌊F2 * 255⌋ : ℚ) + 1 := Int.lt_floor_add_one _
  have hub : ⌊F2 * 255⌋ < c + 11 := by
    have : (⌊F2 * 255⌋ : ℚ) < (c : ℚ) + 11 := by linarith
    exact_mod_cast this
  have hlb : c - 12 < ⌊F2 * 255⌋ := by
    have : (c : ℚ) - 12 < (⌊F2 * 255⌋ : ℚ) := by linarith
    exact_mod_cast this
  rw [abs_le]
  omega

/-- Bounds for `int(q * k) / k` against `q`, for `q ≥ 0` and `k > 0`. -/
theorem trunc_div_bounds {q : ℚ} (h0 : 0 ≤ q) {k : ℚ} (hk : 0 < k) :
    0 ≤ (pyInt (q * k) : ℚ) / k ∧ (pyInt (q * k) : ℚ) / k ≤ q ∧
      q - (pyInt (q * k) : ℚ) / k < 1 / k := by
  rw [pyInt_eq_floor (by positivity)]
  have h1 : (⌊q * k⌋ : ℚ) ≤ q * k := Int.floor_le _
  have h2 : q * k < (⌊q * k⌋ : ℚ) + 1 := Int.lt_floor_add_one _
  have h3 : (0 : ℚ) ≤ (⌊q * k⌋ : ℚ) := by
    have := Int.floor_nonneg.mpr (show 0 ≤ q * k by positivity)
    exact_mod_cast this
  refine ⟨by positivity, ?_, ?_⟩
  · rw [div_le_iff hk]
    linarith
  · have e : q - (⌊q * k⌋ : ℚ) / k = (q * k - (⌊q * k⌋ : ℚ)) / k := by field_simp
    rw [e, div_lt_div_iff hk hk]
    nlinarith

theorem pyMod_compose_sub (x c : ℚ) : pyMod (pyMod x 1 - c) 1 = pyMod (x - c) 1 := by
  rw [sub_eq_add_neg, sub_eq_add_neg x c, pyMod_compose]

/-- With the lightness and saturation produced by `rgb_to_hls`
(non-degenerate case), a channel is `m + (M - m) * wfun (hue % 1)`. -/
theorem chanF_ms {m M : ℚ} (hm0 : 0 ≤ m) (hmM : m < M) (hM1 : M ≤ 1) (sh : ℚ) :
    chanF ((m + M) / 2)
      (if (m + M) / 2 ≤ 1/2 then (M - m) / (M + m) else (M - m) / (2 - (M + m))) sh =
    m + (M - m) * wfun (pyMod sh 1) := by
  unfold chanF
  split_ifs with hl
  · rw [min_eq_left (by linarith)]
    have hd : M + m ≠ 0 := ne_of_gt (by linarith)
    have key : (M - m) / (M + m) * (M + m) = M - m := div_mul_cancel₀ _ hd
    linear_combination ((2 * wfun (pyMod sh 1) - 1) / 2) * key
  · rw [min_eq_right (by linarith)]
    have hd : 2 - (M + m) ≠ 0 := ne_of_gt (by linarith)
    have key : (M - m) / (2 - (M + m)) * (2 - (M + m)) = M - m := div_mul_cancel₀ _ hd
    linear_combination ((2 * wfun (pyMod sh 1) - 1) / 2) * key

/-- Channel reconstruction when the red channel is maximal. -/
theorem inv_caseA {g b M : ℚ} (hgM : g ≤ M) (hbM : b ≤ M) (hlt : min g b < M) :
    (min g b + (M - min g b) * wfun (pyMod ((g - b) / (M - min g b) / 6 + 1/3) 1) = M) ∧
    (min g b + (M - min g b) * wfun (pyMod ((g - b) / (M - min g b) / 6) 1) = g) ∧
    (min g b + (M - min g b) * wfun (pyMod ((g - b) / (M - min g b) / 6 - 1/3) 1) = b) := by
  rcases lt_or_le g b with hgb | hbg
  · -- g < b, so the minimum is g and the ratio is negative
    rw [min_eq_left (le_of_lt hgb)]
    rw [min_eq_left (le_of_lt hgb)] at hlt
    have hD : (0 : ℚ) < M - g := by linarith
    have hDne : M - g ≠ 0 := ne_of_gt hD
    have key : (g - b) / (M - g) * (M - g) = g - b := div_mul_cancel₀ _ hDne
    have ht1 : (g - b) / (M - g) < 0 := div_neg_of_neg_of_pos (by linarith) hD
    have ht0 : -1 ≤ (g - b) / (M - g) := by
      rw [le_div_iff hD]
      linarith
    refine ⟨?_, ?_, ?_⟩
    · rw [pyMod_eq_self (by linarith) (by linarith), wfun_eq_one (by linarith) (by linarith)]
      ring
    · rw [pyMod_eq_add_one (by linarith) (by linarith), wfun_eq_zero (by linarith)]
      ring
    · rw [pyMod_eq_add_one (by linarith) (by linarith),
        wfun_eq_desc (by linarith) (by linarith)]
      linear_combination (-1 : ℚ) * key
  · -- b ≤ g, so the minimum is b and the ratio is in [0, 1]
    rw [min_eq_right hbg]
    rw [min_eq_right hbg] at hlt
    have hD : (0 : ℚ) < M - b := by linarith
    have hDne : M - b ≠ 0 := ne_of_gt hD
    have key : (g - b) / (M - b) * (M - b) = g - b := div_mul_cancel₀ _ hDne
    have ht0 : 0 ≤ (g - b) / (M - b) := div_nonneg (by linarith) (le_of_lt hD)
    have ht1 : (g - b) / (M - b) ≤ 1 := by
      rw [div_le_one hD]
      linarith
    refine ⟨?_, ?_, ?_⟩
    · rw [pyMod_eq_self (by linarith) (by linarith), wfun_eq_one (by linarith) (by linarith)]
      ring
    · rw [pyMod_eq_self (by linarith) (by linarith), wfun_eq_lin (by linarith) (by linarith)]
      linear_combination key
    · rw [pyMod_eq_add_one (by linarith) (by linarith), wfun_eq_zero (by linarith)]
      ring

/-- Channel reconstruction when the green channel is maximal. -/
theorem inv_caseB {r b M : ℚ} (hrM : r ≤ M) (hbM : b ≤ M) (hlt : min r b < M) :
    (min r b + (M - min r b) *
      wfun (pyMod ((2 + (b - r) / (M - min r b)) / 6 + 1/3) 1) = r) ∧
    (min r b + (M - min r b) *
      wfun (pyMod ((2 + (b - r) / (M - min r b)) / 6) 1) = M) ∧
    (min r b + (M - min r b) *
      wfun (pyMod ((2 + (b - r) / (M - min r b)) / 6 - 1/3) 1) = b) := by
  rcases lt_or_le b r with hbr | hrb
  · -- b < r: minimum is b, ratio negative
    rw [min_eq_right (le_of_lt hbr)]
    rw [min_eq_right (le_of_lt hbr)] at hlt
    have hD : (0 : ℚ) < M - b := by linarith
    have hDne : M - b ≠ 0 := ne_of_gt hD
    have key : (b - r) / (M - b) * (M - b) = b - r := div_mul_cancel₀ _ hDne
    have ht1 : (b - r) / (M - b) < 0 := div_neg_of_neg_of_pos (by linarith) hD
    have ht0 : -1 ≤ (b - r) / (M - b) := by
      rw [le_div_iff hD]
      linarith
    refine ⟨?_, ?_, ?_⟩
    · rw [pyMod_eq_self (by linarith) (by linarith), wfun_eq_desc (by linarith) (by linarith)]
      linear_combination (-1 : ℚ) * key
    · rw [pyMod_eq_self (by linarith) (by linarith), wfun_eq_one (by linarith) (by linarith)]
      ring
    · rw [pyMod_eq_add_one (by linarith) (by linarith), wfun_eq_zero (by linarith)]
      ring
  · -- r ≤ b: minimum is r, ratio in [0, 1]
    rw [min_eq_left hrb]
    rw [min_eq_left hrb] at hlt
    have hD : (0 : ℚ) < M - r := by linarith
    have hDne : M - r ≠ 0 := ne_of_gt hD
    have key : (b - r) / (M - r) * (M - r) = b - r := div_mul_cancel₀ _ hDne
    have ht0 : 0 ≤ (b - r) / (M - r) := div_nonneg (by linarith) (le_of_lt hD)
    have ht1 : (b - r) / (M - r) ≤ 1 := by
      rw [div_le_one hD]
      linarith
    refine ⟨?_, ?_, ?_⟩
    · rw [pyMod_eq_self (by linarith) (by linarith), wfun_eq_zero (by linarith)]
      ring
    · rw [pyMod_eq_self (by linarith) (by linarith), wfun_eq_one (by linarith) (by linarith)]
      ring
    · rw [pyMod_eq_self (by linarith) (by linarith), wfun_eq_lin (by linarith) (by linarith)]
      linear_combination key

/-- Channel reconstruction when the blue channel is (strictly) maximal. -/
theorem inv_caseC {r g M : ℚ} (hrM : r < M) (hgM : g < M) :
    (min r g + (M - min r g) *
      wfun (pyMod ((4 + (r - g) / (M - min r g)) / 6 + 1/3) 1) = r) ∧
    (min r g + (M - min r g) *
      wfun (pyMod ((4 + (r - g) / (M - min r g)) / 6) 1) = g) ∧
    (min r g + (M - min r g) *
      wfun (pyMod ((4 + (r - g) / (M - min r g)) / 6 - 1/3) 1) = M) := by
  rcases lt_or_le r g with hrg | hgr
  · -- r < g: minimum is r, ratio negative
    rw [min_eq_left (le_of_lt hrg)]
    have hD : (0 : ℚ) < M - r := by linarith
    have hDne : M - r ≠ 0 := ne_of_gt hD
    have key : (r - g) / (M - r) * (M - r) = r - g := div_mul_cancel₀ _ hDne
    have ht1 : (r - g) / (M - r) < 0 := div_neg_of_neg_of_pos (by linarith) hD
    have ht0 : -1 ≤ (r - g) / (M - r) := by
      rw [le_div_iff hD]
      linarith
    refine ⟨?_, ?_, ?_⟩
    · rw [pyMod_eq_self (by linarith) (by linarith), wfun_eq_zero (by linarith)]
      ring
    · rw [pyMod_eq_self (by linarith) (by linarith), wfun_eq_desc (by linarith) (by linarith)]
      linear_combination (-1 : ℚ) * key
    · rw [pyMod_eq_self (by linarith) (by linarith), wfun_eq_one (by linarith) (by linarith)]
      ring
  · -- g ≤ r: minimum is g, ratio in [0, 1)
    rw [min_eq_right hgr]
    have hD : (0 : ℚ) < M - g := by linarith
    have hDne : M - g ≠ 0 := ne_of_gt hD
    have key : (r - g) / (M - g) * (M - g) = r - g := div_mul_cancel₀ _ hDne
    have ht0 : 0 ≤ (r - g) / (M - g) := div_nonneg (by linarith) (le_of_lt hD)
    have ht1 : (r - g) / (M - g) < 1 := by
      rw [div_lt_one hD]
      linarith
    refine ⟨?_, ?_, ?_⟩
    · rw [pyMod_eq_sub_one (by linarith) (by linarith), wfun_eq_lin (by linarith) (by linarith)]
      linear_combination key
    · rw [pyMod_eq_self (by linarith) (by linarith), wfun_eq_zero (by linarith)]
      ring
    · rw [pyMod_eq_self (by linarith) (by linarith), wfun_eq_one (by linarith) (by linarith)]
      ring

/-- Exact inversion: over the rationals, `hls_to_rgb`'s channel function at
the exact HLS of a valid RGB triple reproduces each channel exactly. -/
theorem rgb_to_hls_exact {r g b : ℚ} (hr0 : 0 ≤ r) (hr1 : r ≤ 1) (hg0 : 0 ≤ g) (hg1 : g ≤ 1)
    (hb0 : 0 ≤ b) (hb1 : b ≤ 1) :
    chanF (rgb_to_hls r g b).2.1 (rgb_to_hls r g b).2.2 ((rgb_to_hls r g b).1 + 1/3) = r ∧
    chanF (rgb_to_hls r g b).2.1 (rgb_to_hls r g b).2.2 ((rgb_to_hls r g b).1) = g ∧
    chanF (rgb_to_hls r g b).2.1 (rgb_to_hls r g b).2.2 ((rgb_to_hls r g b).1 - 1/3) = b := by
  have hrm : min r (min g b) ≤ r := min_le_left _ _
  have hgm : min r (min g b) ≤ g := (min_le_right r _).trans (min_le_left g b)
  have hbm : min r (min g b) ≤ b := (min_le_right r _).trans (min_le_right g b)
  have hrM : r ≤ max r (max g b) := le_max_left _ _
  have hgM : g ≤ max r (max g b) := (le_max_left g b).trans (le_max_right r _)
  have hbM : b ≤ max r (max g b) := (le_max_right g b).trans (le_max_right r _)
  have hm0 : 0 ≤ min r (min g b) := le_min hr0 (le_min hg0 hb0)
  have hM1 : max r (max g b) ≤ 1 := max_le hr1 (max_le hg1 hb1)
  by_cases heq : min r (min g b) = max r (max g b)
  · have hre : r = min r (min g b) := le_antisymm (by rw [heq]; exact hrM) hrm
    have hH0 : (rgb_to_hls r g b).1 = 0 := by
      simp only [rgb_to_hls]
      rw [if_pos heq]
    have hL0 : (rgb_to_hls r g b).2.1 = (min r (min g b) + max r (max g b)) / 2 := by
      simp only [rgb_to_hls]
      rw [if_pos heq]
    have hS0 : (rgb_to_hls r g b).2.2 = 0 := by
      simp only [rgb_to_hls]
      rw [if_pos heq]
    rw [hH0, hL0, hS0]
    have hge : g = min r (min g b) := le_antisymm (by rw [heq]; exact hgM) hgm
    have hbe : b = min r (min g b) := le_antisymm (by rw [heq]; exact hbM) hbm
    have hch : ∀ sh : ℚ, chanF ((min r (min g b) + max r (max g b)) / 2) 0 sh =
        (min r (min g b) + max r (max g b)) / 2 := by
      intro sh
      unfold chanF
      ring
    refine ⟨?_, ?_, ?_⟩ <;> rw [hch] <;> rw [← heq] <;> linarith
  · have hlt : min r (min g b) < max r (max g b) :=
      lt_of_le_of_ne (hrm.trans hrM) heq
    have hL : (rgb_to_hls r g b).2.1 = (min r (min g b) + max r (max g b)) / 2 := by
      simp only [rgb_to_hls]
      rw [if_neg heq]
    have hS : (rgb_to_hls r g b).2.2 =
        (if (min r (min g b) + max r (max g b)) / 2 ≤ 1/2
          then (max r (max g b) - min r (min g b)) / (max r (max g b) + min r (min g b))
          else (max r (max g b) - min r (min g b)) /
            (2 - (max r (max g b) + min r (min g b)))) := by
      simp only [rgb_to_hls]
      rw [if_neg heq]
    have hH : (rgb_to_hls r g b).1 =
        pyMod ((if r = max r (max g b) then
            (max r (max g b) - b) / (max r (max g b) - min r (min g b)) -
              (max r (max g b) - g) / (max r (max g b) - min r (min g b))
          else if g = max r (max g b) then
            2 + (max r (max g b) - r) / (max r (max g b) - min r (min g b)) -
              (max r (max g b) - b) / (max r (max g b) - min r (min g b))
          else
            4 + (max r (max g b) - g) / (max r (max g b) - min r (min g b)) -
              (max r (max g b) - r) / (max r (max g b) - min r (min g b))) / 6) 1 := by
      simp only [rgb_to_hls]
      rw [if_neg heq]
    rw [hH, hL, hS]
    simp only [chanF_ms hm0 hlt hM1]
    by_cases hrmax : r = max r (max g b)
    · simp only [if_pos hrmax]
      have hgr : g ≤ r := by rw [hrmax]; exact hgM
      have hbr : b ≤ r := by rw [hrmax]; exact hbM
      have hmin_eq : min r (min g b) = min g b :=
        min_eq_right ((min_le_left g b).trans hgr)
      have hlt' : min g b < r := by
        have h2 := hlt
        rw [hmin_eq, ← hrmax] at h2
        exact h2
      have hA := inv_caseA hgr hbr hlt'
      refine ⟨?_, ?_, ?_⟩
      · rw [pyMod_compose, div_sub_div_same,
          show max r (max g b) - b - (max r (max g b) - g) = g - b from by ring,
          hmin_eq, ← hrmax]
        exact hA.1
      · rw [pyMod_pyMod, div_sub_div_same,
          show max r (max g b) - b - (max r (max g b) - g) = g - b from by ring,
          hmin_eq, ← hrmax]
        exact hA.2.1
      · rw [pyMod_compose_sub, div_sub_div_same,
          show max r (max g b) - b - (max r (max g b) - g) = g - b from by ring,
          hmin_eq, ← hrmax]
        exact hA.2.2
    · simp only [if_neg hrmax]
      by_cases hgmax : g = max r (max g b)
      · simp only [if_pos hgmax]
        have hrg : r ≤ g := by rw [hgmax]; exact hrM
        have hbg : b ≤ g := by rw [hgmax]; exact hbM
        have hmin_eq2 : min g b = b := min_eq_right hbg
        have hlt' : min r b < g := by
          have h2 := hlt
          rw [hmin_eq2, ← hgmax] at h2
          exact h2
        have hB := inv_caseB hrg hbg hlt'
        refine ⟨?_, ?_, ?_⟩
        · rw [pyMod_compose, add_sub_assoc, div_sub_div_same,
            show max r (max g b) - r - (max r (max g b) - b) = b - r from by ring,
            hmin_eq2, ← hgmax]
          exact hB.1
        · rw [pyMod_pyMod, add_sub_assoc, div_sub_div_same,
            show max r (max g b) - r - (max r (max g b) - b) = b - r from by ring,
            hmin_eq2, ← hgmax]
          exact hB.2.1
        · rw [pyMod_compose_sub, add_sub_assoc, div_sub_div_same,
            show max r (max g b) - r - (max r (max g b) - b) = b - r from by ring,
            hmin_eq2, ← hgmax]
          exact hB.2.2
      · simp only [if_neg hgmax]
        have hbmax : b = max r (max g b) := by
          rcases max_choice r (max g b) with h | h
          · exact absurd h.symm hrmax
          · rcases max_choice g b with h2 | h2
            · exact absurd (h.trans h2).symm hgmax
            · exact (h.trans h2).symm
        have hrb : r ≤ b := by rw [hbmax]; exact hrM
        have hgb : g ≤ b := by rw [hbmax]; exact hgM
        have hrb' : r < b := by
          rcases lt_or_eq_of_le hrb with h | h
          · exact h
          · exact absurd (h.trans hbmax) hrmax
        have hgb' : g < b := by
          rcases lt_or_eq_of_le hgb with h | h
          · exact h
          · exact absurd (h.trans hbmax) hgmax
        have hmin_eq2 : min g b = g := min_eq_left hgb
        have hC := inv_caseC hrb' hgb'
        refine ⟨?_, ?_, ?_⟩
        · rw [pyMod_compose, add_sub_assoc, div_sub_div_same,
            show max r (max g b) - g - (max r (max g b) - r) = r - g from by ring,
            hmin_eq2, ← hbmax]
          exact hC.1
        · rw [pyMod_pyMod, add_sub_assoc, div_sub_div_same,
            show max r (max g b) - g - (max r (max g b) - r) = r - g from by ring,
            hmin_eq2, ← hbmax]
          exact hC.2.1
        · rw [pyMod_compose_sub, add_sub_assoc, div_sub_div_same,
            show max r (max g b) - g - (max r (max g b) - r) = r - g from by ring,
            hmin_eq2, ← hbmax]
          exact hC.2.2
/-- One channel of the integer round trip: truncating H to 360ths and
S, L to 100ths and re-running the channel function lands within `±11`
of the original channel. -/
theorem chan_roundtrip {ph pl ps xt x : ℚ} {c : ℤ} (hh0 : 0 ≤ ph)
    (hl0 : 0 ≤ pl) (hl1 : pl ≤ 1) (hs0 : 0 ≤ ps) (hs1 : ps ≤ 1)
    (hxt : xt + (ph - (pyInt (ph * 360) : ℚ) / 360) = x)
    (hex : chanF pl ps x = (c : ℚ) / 255) :
    |pyInt (chanF ((pyInt (pl * 100) : ℚ) / 100) ((pyInt (ps * 100) : ℚ) / 100) xt * 255)
      - c| ≤ 11 := by
  obtain ⟨hH0, hH1, hH2⟩ := trunc_div_bounds hh0 (show (0:ℚ) < 360 by norm_num)
  obtain ⟨hS0, hS1, hS2⟩ := trunc_div_bounds hs0 (show (0:ℚ) < 100 by norm_num)
  obtain ⟨hL0, hL1, hL2⟩ := trunc_div_bounds hl0 (show (0:ℚ) < 100 by norm_num)
  have hcc := @chanF_close pl ps ((pyInt (pl * 100) : ℚ) / 100) ((pyInt (ps * 100) : ℚ) / 100)
      xt (ph - (pyInt (ph * 360) : ℚ) / 360) hL0 hL1 hl1 (by linarith) hS0 hS1 hs1
      (by linarith) (by linarith) (le_of_lt hH2)
  rw [hxt, hex] at hcc
  apply chan_result_bound
  · exact (chanF_mem hL0 (by linarith) hS0 (by linarith) xt).1
  · exact hcc

/-- C1: the spec's `±1` round-trip tolerance is wrong: `(10,10,10)` maps
to HSL `(0,0,3)` and back to `(7,7,7)`, a deviation of 3. -/
theorem claim_C1_counterexample :
    rgb_to_hsl 10 10 10 = (0, 0, 3) ∧
    hsl_to_rgb ((rgb_to_hsl 10 10 10).1 : ℚ) ((rgb_to_hsl 10 10 10).2.1 : ℚ)
      ((rgb_to_hsl 10 10 10).2.2 : ℚ) = (7, 7, 7) ∧
    ¬(|(7 : ℤ) - 10| ≤ 1) := by
  refine ⟨by with_unfolding_all decide, by with_unfolding_all decide, by decide⟩

/-- C1 (amended): for every RGB triple with integer channels in `[0,255]`,
`hsl_to_rgb (rgb_to_hsl (r,g,b))` returns a triple whose every channel
differs from the original by at most `11` (not `1`: truncating S and L to
whole percent and H to whole degrees can move a channel by several
units, as the `(10,10,10) ↦ (7,7,7)` counterexample shows). -/
theorem claim_C1 (r g b : ℤ) (hr0 : 0 ≤ r) (hr1 : r ≤ 255) (hg0 : 0 ≤ g) (hg1 : g ≤ 255)
    (hb0 : 0 ≤ b) (hb1 : b ≤ 255) :
    |(hsl_to_rgb ((rgb_to_hsl r g b).1 : ℚ) ((rgb_to_hsl r g b).2.1 : ℚ)
        ((rgb_to_hsl r g b).2.2 : ℚ)).1 - r| ≤ 11 ∧
    |(hsl_to_rgb ((rgb_to_hsl r g b).1 : ℚ) ((rgb_to_hsl r g b).2.1 : ℚ)
        ((rgb_to_hsl r g b).2.2 : ℚ)).2.1 - g| ≤ 11 ∧
    |(hsl_to_rgb ((rgb_to_hsl r g b).1 : ℚ) ((rgb_to_hsl r g b).2.1 : ℚ)
        ((rgb_to_hsl r g b).2.2 : ℚ)).2.2 - b| ≤ 11 := by
  have c1 : (0 : ℚ) ≤ (r : ℚ) / 255 := by positivity
  have c2 : ((r : ℚ) / 255 ≤ 1) := by
    rw [div_le_one (by norm_num)]; exact_mod_cast hr1
  have c3 : (0 : ℚ) ≤ (g : ℚ) / 255 := by positivity
  have c4 : ((g : ℚ) / 255 ≤ 1) := by
    rw [div_le_one (by norm_num)]; exact_mod_cast hg1
  have c5 : (0 : ℚ) ≤ (b : ℚ) / 255 := by positivity
  have c6 : ((b : ℚ) / 255 ≤ 1) := by
    rw [div_le_one (by norm_num)]; exact_mod_cast hb1
  obtain ⟨⟨hh0, hh1⟩, ⟨hl0, hl1⟩, hs0, hs1⟩ := rgb_to_hls_mem c1 c2 c3 c4 c5 c6
  obtain ⟨hex1, hex2, hex3⟩ := rgb_to_hls_exact c1 c2 c3 c4 c5 c6
  simp only [rgb_to_hsl, hsl_to_rgb, hls_to_rgb_eq]
  refine ⟨?_, ?_, ?_⟩
  · exact chan_roundtrip hh0 hl0 hl1 hs0 hs1 (by ring) hex1
  · exact chan_roundtrip hh0 hl0 hl1 hs0 hs1 (by ring) hex2
  · exact chan_roundtrip hh0 hl0 hl1 hs0 hs1 (by ring) hex3

theorem claim_C1_witness :
    |(hsl_to_rgb ((rgb_to_hsl 10 10 10).1 : ℚ) ((rgb_to_hsl 10 10 10).2.1 : ℚ)
        ((rgb_to_hsl 10 10 10).2.2 : ℚ)).1 - 10| ≤ 11 ∧
    |(hsl_to_rgb ((rgb_to_hsl 10 10 10).1 : ℚ) ((rgb_to_hsl 10 10 10).2.1 : ℚ)
        ((rgb_to_hsl 10 10 10).2.2 : ℚ)).2.1 - 10| ≤ 11 ∧
    |(hsl_to_rgb ((rgb_to_hsl 10 10 10).1 : ℚ) ((rgb_to_hsl 10 10 10).2.1 : ℚ)
        ((rgb_to_hsl 10 10 10).2.2 : ℚ)).2.2 - 10| ≤ 11 :=
  claim_C1 10 10 10 (by decide) (by decide) (by decide) (by decide) (by decide) (by decide)

/-! ## Claim C5 -/

theorem hexUpper_toUpper {c : Char} {v : ℕ} (h : hexVal? c = some v) :
    hexUpper v = c.toUpper := by
  unfold hexVal? at h
  split_ifs at h with h1 h2 h3 <;> simp only [Option.some.injEq] at h <;> subst h <;>
    simp only [hexUpper, Char.toUpper]
  · rw [if_pos (by omega), if_neg (by omega)]
    rw [show 48 + (c.toNat - 48) = c.toNat by omega]
    exact Char.ofNat_toNat c
  · rw [if_neg (by omega), if_pos (by omega)]
    rw [show 55 + (c.toNat - 87) = c.toNat - 32 by omega]
  · rw [if_neg (by omega), if_neg (by omega)]
    rw [show 55 + (c.toNat - 55) = c.toNat by omega]
    exact Char.ofNat_toNat c

theorem toHex2_pair {v w : ℕ} (hv : v ≤ 15) (hw : w ≤ 15) :
    toHex2 ((16 * v + w : ℕ) : ℤ) = [hexUpper v, hexUpper w] := by
  unfold toHex2
  rw [Int.toNat_natCast]
  rw [show (16 * v + w) / 16 = v by omega, show (16 * v + w) % 16 = w by omega]

theorem rgb_to_hex_ok {r g b : ℤ} (hr1 : 0 ≤ r) (hr2 : r ≤ 255) (hg1 : 0 ≤ g)
    (hg2 : g ≤ 255) (hb1 : 0 ≤ b) (hb2 : b ≤ 255) :
    rgb_to_hex r g b = .ok ('#' :: (toHex2 r ++ toHex2 g ++ toHex2 b)) := by
  unfold rgb_to_hex
  simp [hr1, hr2, hg1, hg2, hb1, hb2]

/-- C5: on a string that is six hex digits after stripping an optional
leading `#`, `rgb_to_hex` applied to the triple from `hex_to_rgb` yields
`#` followed by the six digits uppercased. -/
theorem claim_C5 :
    ∀ (t s : List Char) (c0 c1 c2 c3 c4 c5 : Char) (v0 v1 v2 v3 v4 v5 : ℕ),
      t = [c0, c1, c2, c3, c4, c5] →
      hexVal? c0 = some v0 → hexVal? c1 = some v1 →
      hexVal? c2 = some v2 → hexVal? c3 = some v3 →
      hexVal? c4 = some v4 → hexVal? c5 = some v5 →
      (s = t ∨ s = '#' :: t) →
      (hex_to_rgb s >>= fun p => rgb_to_hex p.1 p.2.1 p.2.2) =
        .ok ('#' :: t.map Char.toUpper) := by
  intro t s c0 c1 c2 c3 c4 c5 v0 v1 v2 v3 v4 v5 ht h0 h1 h2 h3 h4 h5 hst
  subst ht
  have hhex : ∀ c ∈ [c0, c1, c2, c3, c4, c5], (hexVal? c).isSome := by
    intro c hc
    simp only [List.mem_cons, List.not_mem_nil, or_false] at hc
    rcases hc with rfl | rfl | rfl | rfl | rfl | rfl <;>
      simp only [h0, h1, h2, h3, h4, h5, Option.isSome_some]
  have hs : s.dropWhile (· = '#') = [c0, c1, c2, c3, c4, c5] :=
    valid_hex_strip hst rfl hhex
  rw [hex_to_rgb_eq_of_digits hs h0 h1 h2 h3 h4 h5, except_bind_ok]
  have e1 := @rgb_to_hex_ok ((16 * v0 + v1 : ℕ) : ℤ) ((16 * v2 + v3 : ℕ) : ℤ)
    ((16 * v4 + v5 : ℕ) : ℤ)
    (by positivity) (by exact_mod_cast pair_le_255 (hexVal?_le h0) (hexVal?_le h1))
    (by positivity) (by exact_mod_cast pair_le_255 (hexVal?_le h2) (hexVal?_le h3))
    (by positivity) (by exact_mod_cast pair_le_255 (hexVal?_le h4) (hexVal?_le h5))
  rw [show ((16 * v0 + v1 : ℕ) : ℤ) = (((16 * v0 + v1 : ℕ) : ℤ), ((16 * v2 + v3 : ℕ) : ℤ),
    ((16 * v4 + v5 : ℕ) : ℤ)).1 from rfl] at e1
  rw [e1, toHex2_pair (hexVal?_le h0) (hexVal?_le h1),
    toHex2_pair (hexVal?_le h2) (hexVal?_le h3), toHex2_pair (hexVal?_le h4) (hexVal?_le h5),
    hexUpper_toUpper h0, hexUpper_toUpper h1, hexUpper_toUpper h2, hexUpper_toUpper h3,
    hexUpper_toUpper h4, hexUpper_toUpper h5]
  simp [List.map]

/-- C5, witness. -/
theorem claim_C5_witness :
    (hex_to_rgb ("#a1B2c3".toList) >>= fun p => rgb_to_hex p.1 p.2.1 p.2.2) =
      .ok ('#' :: ("a1B2c3".toList).map Char.toUpper) :=
  claim_C5 ("a1B2c3".toList) ("#a1B2c3".toList) 'a' '1' 'B' '2' 'c' '3' 10 1 11 2 12 3
    rfl (by decide) (by decide) (by decide) (by decide) (by decide) (by decide)
    (Or.inr rfl)

/-! ## Claim C6 -/

/-- C6: `lighten_color`, `darken_color` and `get_complementary_color`
preserve the caller's representation on valid inputs: hex string in, hex
string out; RGB tuple in, RGB tuple out (and no error is raised). -/
theorem claim_C6 :
    (∀ (c : PyColor) (amount : ℚ), ValidPyColor c → 0 ≤ amount → amount ≤ 1 →
      ∃ c', lighten_color c amount = .ok c' ∧ c'.isHexStr = c.isHexStr) ∧
    (∀ (c : PyColor) (amount : ℚ), ValidPyColor c → 0 ≤ amount → amount ≤ 1 →
      ∃ c', darken_color c amount = .ok c' ∧ c'.isHexStr = c.isHexStr) ∧
    (∀ c : PyColor, ValidPyColor c →
      ∃ c', get_complementary_color c = .ok c' ∧ c'.isHexStr = c.isHexStr) := by
  refine ⟨?_, ?_, ?_⟩
  · intro c amount hv ha0 ha1
    obtain ⟨r, g, b, hunpack, hr0, hr1, hg0, hg1, hb0, hb1⟩ := unpackColor_valid hv
    obtain ⟨⟨hH0, hH1⟩, ⟨hS0, hS1⟩, hL0, hL1⟩ := rgb_to_hsl_range hr0 hr1 hg0 hg1 hb0 hb1
    have hk : 0 ≤ pyInt (amount * 100) := pyInt_nonneg (mul_nonneg ha0 (by norm_num))
    have hl20 : (0 : ℤ) ≤ min 100 ((rgb_to_hsl r g b).2.2 + pyInt (amount * 100)) :=
      le_min (by norm_num) (by omega)
    have hl21 : min 100 ((rgb_to_hsl r g b).2.2 + pyInt (amount * 100)) ≤ 100 :=
      min_le_left _ _
    have hrng := @hsl_to_rgb_range ((rgb_to_hsl r g b).2.1 : ℚ)
      ((min 100 ((rgb_to_hsl r g b).2.2 + pyInt (amount * 100)) : ℤ) : ℚ)
      (by exact_mod_cast hS0) (by exact_mod_cast hS1)
      (by exact_mod_cast hl20) (by exact_mod_cast hl21)
      ((rgb_to_hsl r g b).1 : ℚ)
    obtain ⟨c', hrepack, hrep⟩ := @repackColor_ok c.isHexStr _ _ _
      hrng.1.1 hrng.1.2 hrng.2.1.1 hrng.2.1.2 hrng.2.2.1 hrng.2.2.2
    refine ⟨c', ?_, hrep⟩
    unfold lighten_color
    rw [hunpack, except_bind_ok]
    exact hrepack
  · intro c amount hv ha0 ha1
    obtain ⟨r, g, b, hunpack, hr0, hr1, hg0, hg1, hb0, hb1⟩ := unpackColor_valid hv
    obtain ⟨⟨hH0, hH1⟩, ⟨hS0, hS1⟩, hL0, hL1⟩ := rgb_to_hsl_range hr0 hr1 hg0 hg1 hb0 hb1
    have hk : 0 ≤ pyInt (amount * 100) := pyInt_nonneg (mul_nonneg ha0 (by norm_num))
    have hl20 : (0 : ℤ) ≤ max 0 ((rgb_to_hsl r g b).2.2 - pyInt (amount * 100)) :=
      le_max_left _ _
    have hl21 : max 0 ((rgb_to_hsl r g b).2.2 - pyInt (amount * 100)) ≤ 100 :=
      max_le (by norm_num) (by omega)
    have hrng := @hsl_to_rgb_range ((rgb_to_hsl r g b).2.1 : ℚ)
      ((max 0 ((rgb_to_hsl r g b).2.2 - pyInt (amount * 100)) : ℤ) : ℚ)
      (by exact_mod_cast hS0) (by exact_mod_cast hS1)
      (by exact_mod_cast hl20) (by exact_mod_cast hl21)
      ((rgb_to_hsl r g b).1 : ℚ)
    obtain ⟨c', hrepack, hrep⟩ := @repackColor_ok c.isHexStr _ _ _
      hrng.1.1 hrng.1.2 hrng.2.1.1 hrng.2.1.2 hrng.2.2.1 hrng.2.2.2
    refine ⟨c', ?_, hrep⟩
    unfold darken_color
    rw [hunpack, except_bind_ok]
    exact hrepack
  · intro c hv
    obtain ⟨r, g, b, hunpack, hr0, hr1, hg0, hg1, hb0, hb1⟩ := unpackColor_valid hv
    obtain ⟨⟨hH0, hH1⟩, ⟨hS0, hS1⟩, hL0, hL1⟩ := rgb_to_hsl_range hr0 hr1 hg0 hg1 hb0 hb1
    have hrng := @hsl_to_rgb_range ((rgb_to_hsl r g b).2.1 : ℚ)
      ((rgb_to_hsl r g b).2.2 : ℚ)
      (by exact_mod_cast hS0) (by exact_mod_cast hS1)
      (by exact_mod_cast hL0) (by exact_mod_cast hL1)
      ((((rgb_to_hsl r g b).1 + 180) % 360 : ℤ) : ℚ)
    obtain ⟨c', hrepack, hrep⟩ := @repackColor_ok c.isHexStr _ _ _
      hrng.1.1 hrng.1.2 hrng.2.1.1 hrng.2.1.2 hrng.2.2.1 hrng.2.2.2
    refine ⟨c', ?_, hrep⟩
    unfold get_complementary_color
    rw [hunpack, except_bind_ok]
    exact hrepack

/-- C6, witness. -/
theorem claim_C6_witness :
    (∃ c', lighten_color (.rgb (10, 20, 30)) (1/10) = .ok c' ∧
      c'.isHexStr = (PyColor.rgb (10, 20, 30)).isHexStr) ∧
    (∃ c', darken_color (.rgb (10, 20, 30)) (1/10) = .ok c' ∧
      c'.isHexStr = (PyColor.rgb (10, 20, 30)).isHexStr) ∧
    (∃ c', get_complementary_color (.rgb (10, 20, 30)) = .ok c' ∧
      c'.isHexStr = (PyColor.rgb (10, 20, 30)).isHexStr) := by
  have hval : ValidPyColor (.rgb (10, 20, 30)) :=
    ⟨by norm_num, by norm_num, by norm_num, by norm_num, by norm_num, by norm_num⟩
  exact ⟨claim_C6.1 _ (1/10) hval (by norm_num) (by norm_num),
    claim_C6.2.1 _ (1/10) hval (by norm_num) (by norm_num),
    claim_C6.2.2 _ hval⟩

/-! ## Claim C3 -/

/-- Every element of the `"analogous"` branch can be repacked. -/
theorem analogous_elem_ok (ih : Bool) {H S L : ℤ} (hS0 : 0 ≤ S) (hS1 : S ≤ 100)
    (hL0 : 0 ≤ L) (hL1 : L ≤ 100) (count i : ℕ) :
    ∃ c', repackColor ih (analogous_rgb H S L count i).1 (analogous_rgb H S L count i).2.1
      (analogous_rgb H S L count i).2.2 = .ok c' := by
  have hrng := @hsl_to_rgb_range (S : ℚ) (L : ℚ)
    (by exact_mod_cast hS0) (by exact_mod_cast hS1)
    (by exact_mod_cast hL0) (by exact_mod_cast hL1)
    (pyMod ((H : ℚ) - 30 + (i : ℚ) * (if 1 < count then 60 / ((count : ℚ) - 1) else 0)) 360)
  obtain ⟨c', hc', -⟩ := @repackColor_ok ih _ _ _
    hrng.1.1 hrng.1.2 hrng.2.1.1 hrng.2.1.2 hrng.2.2.1 hrng.2.2.2
  exact ⟨c', hc'⟩

/-- Every element of the `"monochromatic"` branch can be repacked. -/
theorem mono_elem_ok (ih : Bool) {H S L : ℤ} (hS0 : 0 ≤ S) (hS1 : S ≤ 100)
    (hL0 : 0 ≤ L) (hL1 : L ≤ 100) (count i : ℕ) :
    ∃ c', repackColor ih (mono_rgb H S L count i).1 (mono_rgb H S L count i).2.1
      (mono_rgb H S L count i).2.2 = .ok c' := by
  have hns0 : (0 : ℚ) ≤ max 10 (min 100 ((S : ℚ) +
      ((if 1 < count then (i : ℚ) / ((count : ℚ) - 1) else 0) - 1/2) * 40)) :=
    le_trans (by norm_num) (le_max_left _ _)
  have hns1 : max 10 (min 100 ((S : ℚ) +
      ((if 1 < count then (i : ℚ) / ((count : ℚ) - 1) else 0) - 1/2) * 40)) ≤ 100 :=
    max_le (by norm_num) (min_le_left _ _)
  have hnl0 : (0 : ℚ) ≤ max 10 (min 90 ((L : ℚ) +
      ((if 1 < count then (i : ℚ) / ((count : ℚ) - 1) else 0) - 1/2) * 40)) :=
    le_trans (by norm_num) (le_max_left _ _)
  have hnl1 : max 10 (min 90 ((L : ℚ) +
      ((if 1 < count then (i : ℚ) / ((count : ℚ) - 1) else 0) - 1/2) * 40)) ≤ 90 :=
    max_le (by norm_num) (min_le_left _ _)
  have hrng := @hsl_to_rgb_range
    ((pyInt (max 10 (min 100 ((S : ℚ) + ((if 1 < count then (i : ℚ) / ((count : ℚ) - 1) else 0) - 1/2) * 40))) : ℤ) : ℚ)
    ((pyInt (max 10 (min 90 ((L : ℚ) + ((if 1 < count then (i : ℚ) / ((count : ℚ) - 1) else 0) - 1/2) * 40))) : ℤ) : ℚ)
    (by exact_mod_cast pyInt_nonneg hns0)
    (by exact_mod_cast pyInt_le hns0 (by push_cast; linarith [hns1]))
    (by exact_mod_cast pyInt_nonneg hnl0)
    (by exact_mod_cast pyInt_le hnl0 (by push_cast; linarith [hnl1]))
    (H : ℚ)
  obtain ⟨c', hc', -⟩ := @repackColor_ok ih _ _ _
    hrng.1.1 hrng.1.2 hrng.2.1.1 hrng.2.1.2 hrng.2.2.1 hrng.2.2.2
  exact ⟨c', hc'⟩

/-- Every element of the `"triadic"` branch can be repacked. -/
theorem triadic_elem_ok (ih : Bool) {H S L : ℤ} (hS0 : 0 ≤ S) (hS1 : S ≤ 100)
    (hL0 : 0 ≤ L) (hL1 : L ≤ 100) (pos : ℕ) :
    ∃ c', repackColor ih (triadic_rgb H S L pos).1 (triadic_rgb H S L pos).2.1
      (triadic_rgb H S L pos).2.2 = .ok c' := by
  by_cases hpos : pos < 3
  · have hrng := @hsl_to_rgb_range (S : ℚ) (L : ℚ)
      (by exact_mod_cast hS0) (by exact_mod_cast hS1)
      (by exact_mod_cast hL0) (by exact_mod_cast hL1)
      (pyMod ((H : ℚ) + triadicAngle pos) 360)
    obtain ⟨c', hc', -⟩ := @repackColor_ok ih _ _ _
      hrng.1.1 hrng.1.2 hrng.2.1.1 hrng.2.1.2 hrng.2.2.1 hrng.2.2.2
    refine ⟨c', ?_⟩
    show repackColor ih (triadic_rgb H S L pos).1 _ _ = _
    unfold triadic_rgb
    rw [if_pos hpos]
    exact hc'
  · have hnl0 : (0 : ℚ) ≤ max 10 (min 90 ((L : ℚ) + ((pos / 3 + 1 : ℕ) : ℚ) * (1/5) * 40)) :=
      le_trans (by norm_num) (le_max_left _ _)
    have hnl1 : max 10 (min 90 ((L : ℚ) + ((pos / 3 + 1 : ℕ) : ℚ) * (1/5) * 40)) ≤ 90 :=
      max_le (by norm_num) (min_le_left _ _)
    have hrng := @hsl_to_rgb_range (S : ℚ)
      ((pyInt (max 10 (min 90 ((L : ℚ) + ((pos / 3 + 1 : ℕ) : ℚ) * (1/5) * 40))) : ℤ) : ℚ)
      (by exact_mod_cast hS0) (by exact_mod_cast hS1)
      (by exact_mod_cast pyInt_nonneg hnl0)
      (by exact_mod_cast pyInt_le hnl0 (by push_cast at hnl1 ⊢; linarith))
      (pyMod ((H : ℚ) + triadicAngle (pos % 3)) 360)
    obtain ⟨c', hc', -⟩ := @repackColor_ok ih _ _ _
      hrng.1.1 hrng.1.2 hrng.2.1.1 hrng.2.1.2 hrng.2.2.1 hrng.2.2.2
    refine ⟨c', ?_⟩
    show repackColor ih (triadic_rgb H S L pos).1 _ _ = _
    unfold triadic_rgb
    rw [if_neg hpos]
    exact hc'

/-- C3: with a valid base color, `generate_color_palette` returns exactly
`count` colors for `"analogous"` and `"monochromatic"`; for `"triadic"` the
result has `count` colors, or 3 colors when `count ≤ 3` (the cycling
`while` loop is present, so the first disjunct always holds). -/
theorem claim_C3 :
    ∀ (base : PyColor) (count : ℕ) (variation : String), ValidPyColor base →
      ((variation = "analogous" ∨ variation = "monochromatic") →
        ∃ pal, generate_color_palette base count variation = .ok pal ∧ pal.length = count) ∧
      (variation = "triadic" →
        ∃ pal, generate_color_palette base count variation = .ok pal ∧
          (pal.length = count ∨ (count ≤ 3 ∧ pal.length = 3))) := by
  intro base count variation hv
  obtain ⟨r, g, b, hunpack, hr0, hr1, hg0, hg1, hb0, hb1⟩ := unpackColor_valid hv
  obtain ⟨⟨hH0, hH1⟩, ⟨hS0, hS1⟩, hL0, hL1⟩ := rgb_to_hsl_range hr0 hr1 hg0 hg1 hb0 hb1
  constructor
  · rintro (rfl | rfl)
    · obtain ⟨pal, hpal, hlen, -⟩ := mapM_ok_of_forall
        (fun i => repackColor base.isHexStr
          (analogous_rgb (rgb_to_hsl r g b).1 (rgb_to_hsl r g b).2.1 (rgb_to_hsl r g b).2.2
            count i).1
          (analogous_rgb (rgb_to_hsl r g b).1 (rgb_to_hsl r g b).2.1 (rgb_to_hsl r g b).2.2
            count i).2.1
          (analogous_rgb (rgb_to_hsl r g b).1 (rgb_to_hsl r g b).2.1 (rgb_to_hsl r g b).2.2
            count i).2.2)
        (List.range count)
        (fun a _ => analogous_elem_ok base.isHexStr hS0 hS1 hL0 hL1 count a)
      refine ⟨pal, ?_, by rw [hlen, List.length_range]⟩
      unfold generate_color_palette
      rw [hunpack]
      exact hpal
    · obtain ⟨pal, hpal, hlen, -⟩ := mapM_ok_of_forall
        (fun i => repackColor base.isHexStr
          (mono_rgb (rgb_to_hsl r g b).1 (rgb_to_hsl r g b).2.1 (rgb_to_hsl r g b).2.2
            count i).1
          (mono_rgb (rgb_to_hsl r g b).1 (rgb_to_hsl r g b).2.1 (rgb_to_hsl r g b).2.2
            count i).2.1
          (mono_rgb (rgb_to_hsl r g b).1 (rgb_to_hsl r g b).2.1 (rgb_to_hsl r g b).2.2
            count i).2.2)
        (List.range count)
        (fun a _ => mono_elem_ok base.isHexStr hS0 hS1 hL0 hL1 count a)
      refine ⟨pal, ?_, by rw [hlen, List.length_range]⟩
      unfold generate_color_palette
      rw [hunpack]
      exact hpal
  · rintro rfl
    obtain ⟨pal, hpal, hlen, -⟩ := mapM_ok_of_forall
      (fun pos => repackColor base.isHexStr
        (triadic_rgb (rgb_to_hsl r g b).1 (rgb_to_hsl r g b).2.1 (rgb_to_hsl r g b).2.2 pos).1
        (triadic_rgb (rgb_to_hsl r g b).1 (rgb_to_hsl r g b).2.1 (rgb_to_hsl r g b).2.2
          pos).2.1
        (triadic_rgb (rgb_to_hsl r g b).1 (rgb_to_hsl r g b).2.1 (rgb_to_hsl r g b).2.2
          pos).2.2)
      (List.range count)
      (fun a _ => triadic_elem_ok base.isHexStr hS0 hS1 hL0 hL1 a)
    refine ⟨pal, ?_, Or.inl (by rw [hlen, List.length_range])⟩
    unfold generate_color_palette
    rw [hunpack]
    exact hpal

/-- C3, witness. -/
theorem claim_C3_witness :
    (∃ pal, generate_color_palette (.rgb (10, 20, 30)) 5 "analogous" = .ok pal ∧
      pal.length = 5) ∧
    (∃ pal, generate_color_palette (.rgb (10, 20, 30)) 2 "triadic" = .ok pal ∧
      (pal.length = 2 ∨ (2 ≤ 3 ∧ pal.length = 3))) := by
  have hval : ValidPyColor (.rgb (10, 20, 30)) :=
    ⟨by norm_num, by norm_num, by norm_num, by norm_num, by norm_num, by norm_num⟩
  exact ⟨(claim_C3 _ 5 "analogous" hval).1 (Or.inl rfl),
    (claim_C3 _ 2 "triadic" hval).2 rfl⟩

/-! ## Claim C7 -/

/-- C7: the `i`-th color of an `"analogous"` palette is the conversion,
back to the base representation, of `hsl_to_rgb` applied to the hue
`(H - 30 + i*step) mod 360` with `step = 60/(count-1)` for `count > 1`
and `0` otherwise, `S` and `L` unchanged, where `(H, S, L)` is the HSL
value of the base color. -/
theorem claim_C7 :
    ∀ (base : PyColor) (count : ℕ), ValidPyColor base → 1 ≤ count →
      ∀ i : ℕ, i < count →
      ∀ r g b : ℤ, unpackColor base = .ok (r, g, b) →
      ∃ pal c',
        generate_color_palette base count "analogous" = .ok pal ∧
        pal[i]? = some c' ∧
        repackColor base.isHexStr
          (hsl_to_rgb
            (pyMod (((rgb_to_hsl r g b).1 : ℚ) - 30 +
              (i : ℚ) * (if 1 < count then 60 / ((count : ℚ) - 1) else 0)) 360)
            ((rgb_to_hsl r g b).2.1 : ℚ) ((rgb_to_hsl r g b).2.2 : ℚ)).1
          (hsl_to_rgb
            (pyMod (((rgb_to_hsl r g b).1 : ℚ) - 30 +
              (i : ℚ) * (if 1 < count then 60 / ((count : ℚ) - 1) else 0)) 360)
            ((rgb_to_hsl r g b).2.1 : ℚ) ((rgb_to_hsl r g b).2.2 : ℚ)).2.1
          (hsl_to_rgb
            (pyMod (((rgb_to_hsl r g b).1 : ℚ) - 30 +
              (i : ℚ) * (if 1 < count then 60 / ((count : ℚ) - 1) else 0)) 360)
            ((rgb_to_hsl r g b).2.1 : ℚ) ((rgb_to_hsl r g b).2.2 : ℚ)).2.2 = Except.ok c' := by
  intro base count hv hcount i hi r g b hunpack
  obtain ⟨r', g', b', hunpack', hr0, hr1, hg0, hg1, hb0, hb1⟩ := unpackColor_valid hv
  have hinj : (r, g, b) = (r', g', b') := Except.ok.inj (hunpack.symm.trans hunpack')
  have e1 : r = r' := congrArg Prod.fst hinj
  have e2 : g = g' := congrArg (fun t => t.2.1) hinj
  have e3 : b = b' := congrArg (fun t => t.2.2) hinj
  subst e1
  subst e2
  subst e3
  obtain ⟨⟨hH0, hH1⟩, ⟨hS0, hS1⟩, hL0, hL1⟩ := rgb_to_hsl_range hr0 hr1 hg0 hg1 hb0 hb1
  obtain ⟨pal, hpal, hlen, hget⟩ := mapM_ok_of_forall
    (fun j => repackColor base.isHexStr
      (analogous_rgb (rgb_to_hsl r g b).1 (rgb_to_hsl r g b).2.1 (rgb_to_hsl r g b).2.2
        count j).1
      (analogous_rgb (rgb_to_hsl r g b).1 (rgb_to_hsl r g b).2.1 (rgb_to_hsl r g b).2.2
        count j).2.1
      (analogous_rgb (rgb_to_hsl r g b).1 (rgb_to_hsl r g b).2.1 (rgb_to_hsl r g b).2.2
        count j).2.2)
    (List.range count)
    (fun a _ => analogous_elem_ok base.isHexStr hS0 hS1 hL0 hL1 count a)
  obtain ⟨c', hc', hfc⟩ := hget i i (by rw [List.getElem?_range hi])
  refine ⟨pal, c', ?_, hc', ?_⟩
  · unfold generate_color_palette
    rw [hunpack']
    exact hpal
  · exact hfc

/-- C7, witness. -/
theorem claim_C7_witness :
    ∃ pal c',
      generate_color_palette (.rgb (10, 20, 30)) 3 "analogous" = .ok pal ∧
      pal[1]? = some c' ∧
      repackColor (PyColor.rgb (10, 20, 30)).isHexStr
        (hsl_to_rgb
          (pyMod (((rgb_to_hsl 10 20 30).1 : ℚ) - 30 +
            ((1 : ℕ) : ℚ) * (if 1 < 3 then 60 / ((3 : ℚ) - 1) else 0)) 360)
          ((rgb_to_hsl 10 20 30).2.1 : ℚ) ((rgb_to_hsl 10 20 30).2.2 : ℚ)).1
        (hsl_to_rgb
          (pyMod (((rgb_to_hsl 10 20 30).1 : ℚ) - 30 +
            ((1 : ℕ) : ℚ) * (if 1 < 3 then 60 / ((3 : ℚ) - 1) else 0)) 360)
          ((rgb_to_hsl 10 20 30).2.1 : ℚ) ((rgb_to_hsl 10 20 30).2.2 : ℚ)).2.1
        (hsl_to_rgb
          (pyMod (((rgb_to_hsl 10 20 30).1 : ℚ) - 30 +
            ((1 : ℕ) : ℚ) * (if 1 < 3 then 60 / ((3 : ℚ) - 1) else 0)) 360)
          ((rgb_to_hsl 10 20 30).2.1 : ℚ) ((rgb_to_hsl 10 20 30).2.2 : ℚ)).2.2 = Except.ok c' :=
  claim_C7 (.rgb (10, 20, 30)) 3
    ⟨by norm_num, by norm_num, by norm_num, by norm_num, by norm_num, by norm_num⟩
    (by norm_num) 1 (by norm_num) 10 20 30 rfl

/-! ## Claim C10 -/

/-- C10: black is a fixed point of `darken_color` for every amount in
`[0, 1]`, in both representations: the lightness of black is 0 and the
update `max(0, l - int(amount*100))` keeps it at 0. -/
theorem claim_C10 :
    ∀ amount : ℚ, 0 ≤ amount → amount ≤ 1 →
      darken_color (.rgb (0, 0, 0)) amount = .ok (.rgb (0, 0, 0)) ∧
      darken_color (.hex ("#000000".toList)) amount = .ok (.hex ("#000000".toList)) := by
  intro amount h0 h1
  have hk : 0 ≤ pyInt (amount * 100) := pyInt_nonneg (by positivity)
  obtain ⟨k, hk', hknn⟩ : ∃ k : ℤ, pyInt (amount * 100) = k ∧ 0 ≤ k :=
    ⟨pyInt (amount * 100), rfl, hk⟩
  have e1 : rgb_to_hsl 0 0 0 = (0, 0, 0) := by with_unfolding_all decide
  have e2 : max (0 : ℤ) (0 - k) = 0 := by omega
  have e3 : hex_to_rgb ("#000000".toList) = .ok (0, 0, 0) := by with_unfolding_all decide
  constructor
  · unfold darken_color
    simp only [unpackColor, except_bind_ok, e1, hk']
    rw [show max 0 (((0, 0, 0) : ℤ × ℤ × ℤ).2.2 - k) = 0 from by simpa using e2]
    with_unfolding_all decide
  · unfold darken_color
    simp only [unpackColor, e3, except_bind_ok, e1, hk']
    rw [show max 0 (((0, 0, 0) : ℤ × ℤ × ℤ).2.2 - k) = 0 from by simpa using e2]
    with_unfolding_all decide

/-- C10, witness. -/
theorem claim_C10_witness :
    darken_color (.rgb (0, 0, 0)) (1/2) = .ok (.rgb (0, 0, 0)) ∧
    darken_color (.hex ("#000000".toList)) (1/2) = .ok (.hex ("#000000".toList)) :=
  claim_C10 (1/2) (by norm_num) (by norm_num)
